import Mathlib

/-!
# KleeRunner: execution orchestration and result classification

A shallow embedding of `server/src/KleeRunner.cpp` (UTBotCpp).

* Paths and strings are `String`; the `std::filesystem::path` operations the
  source uses (`operator/`, `parent_path`, `stem`, `extension`) are written
  over the character list.
* The file system is an explicit value (`FileSystem`), threaded through the
  code together with a log of the calls made to outside collaborators
  (`World`).
* Everything declared in headers that are not part of the sources at hand
  (`Paths::*`, `KleeUtils::*`, `TC_fromFile`, the engine process, the code
  generator, the cancellation flag) is a field of the environment `Env`.
* Exceptions are values of `Except Exception`; a function that can throw
  returns its outcome together with the state reached (`Result`).
* Logging (`LOG_S`) changes none of the modelled state and is left out.
-/

namespace KleeRunner

abbrev Path := String

/-! ## `std::filesystem::path` operations -/

/-- The `filename()` component: the characters after the last separator. -/
def filenameChars (p : List Char) : List Char :=
  (p.reverse.takeWhile (fun c => c != '/')).reverse

/-- The `extension()` of a file name given as characters: the part from the last period on,
unless the file name is dot or dot-dot, has no period, or its only period leads it. -/
def extensionOfFilename : List Char → List Char
  | [] => []
  | _ :: rest =>
    if rest.contains '.' then '.' :: (rest.reverse.takeWhile (fun x => x != '.')).reverse
    else []

/-- The `stem()` of a file name given as characters: the file name without its extension. -/
def stemOfFilename : List Char → List Char
  | [] => []
  | c :: rest =>
    if rest.contains '.' then c :: ((rest.reverse.dropWhile (fun x => x != '.')).drop 1).reverse
    else c :: rest

/-- The member `path::extension()`. -/
def extension (p : Path) : String :=
  String.mk (if filenameChars p.data = ['.', '.'] then [] else extensionOfFilename (filenameChars p.data))

/-- The member `path::stem()`. -/
def stem (p : Path) : Path :=
  String.mk (if filenameChars p.data = ['.', '.'] then ['.', '.'] else stemOfFilename (filenameChars p.data))

/-- The member `path::parent_path()`: what precedes the last separator (the root itself for a
path directly under the root). -/
def parent_path (p : Path) : Path :=
  let r := (p.data.reverse.dropWhile (fun c => c != '/'))
  match r.dropWhile (fun c => c == '/') with
  | [] => String.mk (r.take 1)
  | q => String.mk q.reverse

/-- The `operator/` of paths: an absolute right operand replaces the left one, otherwise the
operands are joined by one separator. -/
def pathAppend (d : Path) (n : String) : Path :=
  match n.data with
  | '/' :: _ => n
  | _ =>
    if d.data = [] then n
    else if d.data.getLast? = some '/' then d ++ n
    else d ++ "/" ++ n

/-! ## Data model -/

/-- One function under test (`tests::TestMethod`); the fields come in the order of the
binding `[methodName, bitcodeFile, sourceFilepath]` in `runKlee`. -/
structure TestMethod where
  methodName : String
  bitcodeFilePath : Path
  sourceFilePath : Path
deriving DecidableEq, Repr

/-- The status tag `UTBotKTest::Status`. -/
inductive Status where
  | SUCCESS
  | FAILED
deriving DecidableEq, Repr

/-- One object of a parsed test case: a named sequence of bytes. -/
structure ConcretizedObject where
  name : String
  values : List Nat
deriving DecidableEq, Repr

/-- The parsed content of a concretized-test file (`TestCase`): its objects, in order. -/
structure TestCase where
  objects : List ConcretizedObject
deriving DecidableEq, Repr

/-- The object of a classified case, built from one `ConcretizedObject`. -/
structure UTBotKTestObject where
  obj : ConcretizedObject
deriving DecidableEq, Repr

/-- One classified case (`UTBotKTest`). -/
structure UTBotKTest where
  objects : List UTBotKTestObject
  status : Status
  errorDescriptors : List String
deriving DecidableEq, Repr

/-- The map `MethodKtests` from a method to its cases, as an association list. -/
abbrev MethodKtests := List (TestMethod × List UTBotKTest)

/-- The statement `ktestChunk[method].emplace_back(c)`: the entry of `method` is created when
absent, and the case goes to the end of it. -/
def emplaceBack : MethodKtests → TestMethod → UTBotKTest → MethodKtests
  | [], m, c => [(m, [c])]
  | (k, v) :: rest, m, c =>
    if k = m then (k, v ++ [c]) :: rest else (k, v) :: emplaceBack rest m c

/-- The lookup `CollectionUtils::containsKey` / `at`: the cases of `method`, when it has an entry. -/
def findCases : MethodKtests → TestMethod → Option (List UTBotKTest)
  | [], _ => none
  | (k, v) :: rest, m => if k = m then some v else findCases rest m

/-- The per-file aggregate `tests::Tests`, with the members this file reads or writes. -/
structure Tests where
  sourceFilePath : Path
  isFilePresentedInCommands : Bool
  isFilePresentedInArtifact : Bool
  commentBlocks : List String
deriving DecidableEq, Repr

/-- The members of `SettingsContext` this file reads. -/
structure SettingsContext where
  timeoutPerFunction : Option Nat
  useDeterministicSearcher : Bool
  verbose : Bool
deriving DecidableEq, Repr

/-- The conditions this file raises; `IndexOutOfBounds` stands for reading `testMethods[0]`
of an empty vector, which the language leaves undefined. -/
inductive Exception where
  | FileNotPresentedInCommandsException (filePath : Path)
  | FileNotPresentedInArtifactException (filePath : Path)
  | CancellationException
  | IndexOutOfBounds
deriving DecidableEq, Repr

/-! ## File system and outside world -/

/-- A node of the file system: a directory or a regular file with its text. -/
inductive Node where
  | dir
  | file (text : String)
deriving DecidableEq, Repr

/-- The file system: the existing paths, each with its node, in the order a directory
iteration meets them. -/
structure FileSystem where
  nodes : List (Path × Node)
deriving DecidableEq, Repr

/-- A call made to a collaborator outside this file, as recorded in the log. -/
inductive Event where
  | runKleeTask (argv : List String) (timeout : Option Nat)
  | kleeStats (kleeOut : Path)
  | parseKTestsToFinalCode (tests : Tests) (ktests : List MethodKtests) (verbose : Bool)
  | sarifAddTestsToResults (tests : Tests)
deriving DecidableEq, Repr

/-- The state outside the arguments: the file system, the log of outside calls, and the
number of times the cancellation flag has been polled. -/
structure World where
  fs : FileSystem
  log : List Event
  polls : Nat
deriving DecidableEq, Repr

/-- What the absent headers provide. -/
structure Env where
  /-- The `Paths::isKtestJson` test. -/
  isKtestJson : Path → Bool
  /-- The `Paths::hasEarly` test. -/
  hasEarly : FileSystem → Path → Bool
  /-- The `Paths::hasInternalError` test. -/
  hasInternalError : FileSystem → Path → Bool
  /-- The `Paths::getErrorDescriptors` lookup. -/
  getErrorDescriptors : FileSystem → Path → List Path
  /-- The parser `TC_fromFile`; `none` is the null pointer. -/
  TC_fromFile : FileSystem → Path → Option TestCase
  /-- The constant `sarif::ERROR_ID_KEY`. -/
  ERROR_ID_KEY : String
  /-- The result of `Paths::getKleeOutDir(projectTmpPath)`. -/
  kleeOutDir : Path
  /-- The four-argument `Paths::kleeOutDirForEntrypoints`, by source file and method name. -/
  kleeOutDirForMethod : Path → String → Path
  /-- The three-argument `Paths::kleeOutDirForEntrypoints`, by source file. -/
  kleeOutDirForFile : Path → Path
  /-- The `KleeUtils::entryPointFunction(tests, methodName, true)` symbol. -/
  entryPointFunction : Tests → String → String
  /-- The `KleeUtils::processNumberOption()` flag. -/
  processNumberOption : String
  /-- The constant `types::Type::symStdinSize`. -/
  symStdinSize : Nat
  /-- The effect of one engine process (`RunKleeTask::run`) on the file system. -/
  engine : List String → Option Nat → FileSystem → FileSystem
  /-- The cancellation flag as seen by the n-th poll. -/
  cancelled : Nat → Bool
  /-- The effect of `KleeGenerator::parseKTestsToFinalCode` on the file aggregate. -/
  parseKTestsToFinalCode : Tests → List MethodKtests → Tests
  /-- The run settings. -/
  settingsContext : SettingsContext

deriving instance DecidableEq for Except

/-- The outcome of a call: whether it returned or threw, the value it leaves in its
by-reference result argument, and the file aggregate and world it leaves. -/
structure Result (α : Type) where
  value : Except Exception Unit
  out : α
  tests : Tests
  world : World

/-- The test `fs::exists`. -/
def fsExists (fs : FileSystem) (p : Path) : Bool :=
  fs.nodes.any (fun n => n.1 == p)

/-- The entries of `fs::directory_iterator(d)`: the paths whose parent is `d`. -/
def directory_iterator (fs : FileSystem) (d : Path) : List Path :=
  (fs.nodes.filter (fun n => parent_path n.1 == d)).map Prod.fst

/-- The call `fs::remove(p)`: the node at `p` is erased. -/
def fsRemove (fs : FileSystem) (p : Path) : FileSystem :=
  { nodes := fs.nodes.filter (fun n => n.1 != p) }

/-- Reading a whole file through `std::ifstream`; a path that cannot be opened reads as empty. -/
def readFile (fs : FileSystem) (p : Path) : String :=
  match fs.nodes.find? (fun n => n.1 == p) with
  | some (_, Node.file text) => text
  | _ => ""

/-- The characters of the proper ancestors of a path: what precedes each separator. -/
def ancestorsChars : List Char → List (List Char)
  | [] => []
  | c :: cs => (if c = '/' then [[]] else []) ++ (ancestorsChars cs).map (fun a => c :: a)

/-- Adds a directory node at `p` unless something exists there. -/
def addDir (fs : FileSystem) (p : Path) : FileSystem :=
  if fsExists fs p then fs else { nodes := fs.nodes ++ [(p, Node.dir)] }

/-- The call `fs::create_directories(p)`: `p` and its missing ancestors become directories. -/
def create_directories (fs : FileSystem) (p : Path) : FileSystem :=
  (((ancestorsChars p.data).filter (fun a => a != [] && a.getLast? != some '/')).map String.mk ++ [p]).foldl
    addDir fs

/-- Whether the characters `a` begin the characters `b`. -/
def beginsWith : List Char → List Char → Bool
  | [], _ => true
  | _ :: _, [] => false
  | x :: xs, y :: ys => x == y && beginsWith xs ys

/-- Writing `text` to `p` through a fresh `std::ofstream`: a regular file is replaced, a new
file is created, and a directory in the way makes the stream fail without effect. -/
def writeFile (fs : FileSystem) (p : Path) (text : String) : FileSystem :=
  match fs.nodes.find? (fun n => n.1 == p) with
  | some (_, Node.dir) => fs
  | some (_, Node.file _) =>
    { nodes := fs.nodes.map (fun n => if n.1 == p then (p, Node.file text) else n) }
  | none => { nodes := fs.nodes ++ [(p, Node.file text)] }

/-! ## `ExecUtils::throwIfCancelled` -/

/-- One poll of the cancellation flag; `error` when the run has been cancelled. -/
def throwIfCancelled (env : Env) (w : World) : Except Exception Unit × World :=
  let w1 : World := { w with polls := w.polls + 1 }
  if env.cancelled w.polls then (Except.error Exception.CancellationException, w1)
  else (Except.ok (), w1)

/-! ## `processMethod` and its helpers -/

/-- The helper `clearUnusedData`: the two transient files of the directory are removed. -/
def clearUnusedData (fs : FileSystem) (kleeDir : Path) : FileSystem :=
  fsRemove (fsRemove fs (pathAppend kleeDir "assembly.ll")) (pathAppend kleeDir "run.istats")

/-- The helper `writeKleeStats`: one run of the statistics process, whose outcome is only
logged. -/
def writeKleeStats (w : World) (kleeOut : Path) : World :=
  { w with log := w.log ++ [Event.kleeStats kleeOut] }

/-- The lambda that turns an error-descriptor file into its string: the whole text of the
file, followed, when the stem of the file has an extension, by a line with the error-id key
and that extension without its leading dot. -/
def readErrorDescriptor (env : Env) (fs : FileSystem) (errorFile : Path) : String :=
  let content := readFile fs errorFile
  let errorId := extension (stem errorFile)
  if errorId != "" then
    content ++ ("\n" ++ env.ERROR_ID_KEY ++ ":" ++ errorId.drop 1)
  else content

/-- The local variables of the loop of `processMethod`. -/
structure LoopState where
  hasTimeout : Bool
  hasError : Bool
  ktestChunk : MethodKtests
deriving DecidableEq, Repr

/-- The body of the loop of `processMethod` for one directory entry. -/
def processEntry (env : Env) (fs : FileSystem) (method : TestMethod) (st : LoopState)
    (path : Path) : LoopState :=
  if env.isKtestJson path then
    if env.hasEarly fs path then { st with hasTimeout := true }
    else if env.hasInternalError fs path then { st with hasError := true }
    else
      match env.TC_fromFile fs path with
      | none => st
      | some ktestData =>
        let errorDescriptorFiles := env.getErrorDescriptors fs path
        let status := if errorDescriptorFiles.isEmpty then Status.SUCCESS else Status.FAILED
        let objects := ktestData.objects.map UTBotKTestObject.mk
        let errorDescriptors := errorDescriptorFiles.map (readErrorDescriptor env fs)
        { st with ktestChunk := emplaceBack st.ktestChunk method ⟨objects, status, errorDescriptors⟩ }
  else st

/-- The loop of `processMethod` over the entries of the directory. -/
def processEntries (env : Env) (fs : FileSystem) (method : TestMethod) (st : LoopState)
    (entries : List Path) : LoopState :=
  entries.foldl (processEntry env fs method) st

/-- The timeout diagnostic of a method. -/
def timeoutMessage (methodName : String) : String :=
  "Some tests for function '" ++ methodName ++
    "' were skipped, as execution of function is out of timeout."

/-- The internal-error diagnostic of a method. -/
def internalErrorMessage (methodName : String) : String :=
  "Some tests for function '" ++ methodName ++
    "' were skipped, as execution of function leads KLEE to the internal error. See console log for more details."

/-- The diagnostic of a method for which no case was produced. -/
def notGeneratedMessage (methodName : String) : String :=
  "Tests for " ++ methodName ++ " were not generated. Maybe the function is too complex."

/-- The function `processMethod`: the classification of one output directory. It returns the
result chunk, the file aggregate and the world it leaves. -/
def processMethod (env : Env) (ktestChunk : MethodKtests) (tests : Tests) (kleeOut : Path)
    (method : TestMethod) (w : World) : MethodKtests × Tests × World :=
  if fsExists w.fs kleeOut then
    let fs1 := clearUnusedData w.fs kleeOut
    let st := processEntries env fs1 method ⟨false, false, ktestChunk⟩ (directory_iterator fs1 kleeOut)
    let tests1 : Tests :=
      if st.hasTimeout then
        { tests with commentBlocks := tests.commentBlocks ++ [timeoutMessage method.methodName] }
      else tests
    let tests2 : Tests :=
      if st.hasError then
        { tests1 with commentBlocks := tests1.commentBlocks ++ [internalErrorMessage method.methodName] }
      else tests1
    let w1 := writeKleeStats { w with fs := fs1 } kleeOut
    let tests3 : Tests :=
      if (findCases st.ktestChunk method).isNone || (findCases st.ktestChunk method) == some [] then
        { tests2 with commentBlocks := tests2.commentBlocks ++ [notGeneratedMessage method.methodName] }
      else tests2
    (st.ktestChunk, tests3, w1)
  else (ktestChunk, tests, w)

/-! ## The two runners -/

/-- The argument vector of a one-method engine run. -/
def nonInteractiveArgv (env : Env) (entryPointFlag outputDir : String) (bitcodeFilePath : Path) :
    List String :=
  ["klee", entryPointFlag, "--libc=klee", "--utbot", "--posix-runtime", "--fp-runtime",
    "--only-output-states-covering-new", "--allocate-determ", "--external-calls=all",
    "--timer-interval=1000ms", "--bcov-check-interval=6s", "-istats-write-interval=5s",
    "--disable-verify", "--check-div-zero=false", "--check-overshift=false",
    "--skip-not-lazy-and-symbolic-pointers", outputDir]
  ++ (if env.settingsContext.useDeterministicSearcher then ["--search=dfs"] else [])
  ++ [bitcodeFilePath]
  ++ ["--sym-stdin"]
  ++ [toString env.symStdinSize]

/-- The statements of `processBatchWithoutInteractive` from the entry-point name to the end
of `task.run()`: the parent of the output directory is created and the engine runs once for
the method, with the per-function timeout. -/
def nonInteractiveEngineRun (env : Env) (testMethod : TestMethod) (tests : Tests) (w : World) :
    World :=
  let entryPoint := env.entryPointFunction tests testMethod.methodName
  let entryPointFlag := "--entry-point=" ++ entryPoint
  let kleeOut := env.kleeOutDirForMethod testMethod.sourceFilePath testMethod.methodName
  let fs1 := create_directories w.fs (parent_path kleeOut)
  let outputDir := "--output-dir=" ++ kleeOut
  let argvData := nonInteractiveArgv env entryPointFlag outputDir testMethod.bitcodeFilePath
  let timeout := env.settingsContext.timeoutPerFunction
  { w with fs := env.engine argvData timeout fs1,
           log := w.log ++ [Event.runKleeTask argvData timeout] }

/-- The method `KleeRunner::processBatchWithoutInteractive`: one engine run for one method,
one poll of the cancellation flag, then the classification of its output directory into
`ktestChunk`. -/
def processBatchWithoutInteractive (env : Env) (ktestChunk : MethodKtests)
    (testMethod : TestMethod) (tests : Tests) (w : World) : Result MethodKtests :=
  if !tests.isFilePresentedInArtifact then ⟨Except.ok (), ktestChunk, tests, w⟩
  else
    let kleeOut := env.kleeOutDirForMethod testMethod.sourceFilePath testMethod.methodName
    let w1 := nonInteractiveEngineRun env testMethod tests w
    match throwIfCancelled env w1 with
    | (Except.error e, w2) => ⟨Except.error e, ktestChunk, tests, w2⟩
    | (Except.ok _, w2) =>
      let r := processMethod env ktestChunk tests kleeOut testMethod w2
      ⟨Except.ok (), r.1, r.2.1, r.2.2⟩

/-- The text written to the entry-points file: one entry-point symbol per method, each
followed by a line break. -/
def entrypointsText (env : Env) (tests : Tests) (testMethods : List TestMethod) : String :=
  testMethods.foldl (fun acc method => acc ++ env.entryPointFunction tests method.methodName ++ "\n") ""

/-- The argument vector of a many-method engine run. -/
def interactiveArgv (env : Env) (entryPointFlag entrypointsArg outputDir : String)
    (bitcodeFilePath : Path) : List String :=
  ["klee", entryPointFlag, "--libc=klee", "--utbot", "--posix-runtime", "--fp-runtime",
    "--only-output-states-covering-new", "--allocate-determ", "--external-calls=all",
    "--timer-interval=1000ms", "--bcov-check-interval=6s", "-istats-write-interval=5s",
    "--disable-verify", "--check-div-zero=false", "--check-overshift=false",
    "--skip-not-lazy-and-symbolic-pointers", "--interactive", env.processNumberOption,
    entrypointsArg, outputDir]
  ++ (match env.settingsContext.timeoutPerFunction with
      | some t => ["--timeout-per-function=" ++ toString t]
      | none => [])
  ++ (if env.settingsContext.useDeterministicSearcher then ["--search=dfs"] else [])
  ++ [bitcodeFilePath]
  ++ ["--sym-stdin"]
  ++ [toString env.symStdinSize]

/-- The timeout handed to the task of a many-method run. -/
def interactiveTimeout (env : Env) (testMethods : List TestMethod) : Option Nat :=
  match env.settingsContext.timeoutPerFunction with
  | some t => some (t * testMethods.length)
  | none => env.settingsContext.timeoutPerFunction

/-- The last loop of `processBatchWithInteractive`: every method of the batch is classified
from its own sub-directory, with a fresh chunk, and the chunk is pushed onto `ktests`. -/
def classifyEach (env : Env) (kleeOut : Path) :
    List TestMethod → Tests → List MethodKtests → World → List MethodKtests × Tests × World
  | [], tests, ktests, w => (ktests, tests, w)
  | method :: rest, tests, ktests, w =>
    let kleeMethodName := env.entryPointFunction tests method.methodName
    let newKleeOut := pathAppend kleeOut kleeMethodName
    let r := processMethod env [] tests newKleeOut method w
    classifyEach env kleeOut rest r.2.1 (ktests ++ [r.1]) r.2.2

/-- The statements of `processBatchWithInteractive` from the read of `testMethods[0]` to the
end of `task.run()`: the parent of the output root is created, the entry-points file is
written, and the engine runs once with the argument vector and timeout built for the batch. -/
def interactiveEngineRun (env : Env) (testMethod : TestMethod) (testMethods : List TestMethod)
    (tests : Tests) (w : World) : World :=
  let entryPoint := env.entryPointFunction tests testMethod.methodName
  let entryPointFlag := "--entry-point=" ++ entryPoint
  let kleeOut := env.kleeOutDirForFile tests.sourceFilePath
  let fs1 := create_directories w.fs (parent_path kleeOut)
  let entrypoints := pathAppend (parent_path kleeOut) "entrypoints.txt"
  let fs2 := writeFile fs1 entrypoints (entrypointsText env tests testMethods)
  let entrypointsArg := "--entrypoints-file=" ++ entrypoints
  let outputDir := "--output-dir=" ++ kleeOut
  let argvData := interactiveArgv env entryPointFlag entrypointsArg outputDir testMethod.bitcodeFilePath
  let timeout := interactiveTimeout env testMethods
  { w with fs := env.engine argvData timeout fs2,
           log := w.log ++ [Event.runKleeTask argvData timeout] }

/-- The method `KleeRunner::processBatchWithInteractive`: one engine run for the whole batch,
one poll of the cancellation flag, then the classification of each method from the shared
output root. -/
def processBatchWithInteractive (env : Env) (testMethods : List TestMethod) (tests : Tests)
    (ktests : List MethodKtests) (w : World) : Result (List MethodKtests) :=
  if !tests.isFilePresentedInArtifact then ⟨Except.ok (), ktests, tests, w⟩
  else
    match testMethods.head? with
    | none => ⟨Except.error Exception.IndexOutOfBounds, ktests, tests, w⟩
    | some testMethod =>
      let kleeOut := env.kleeOutDirForFile tests.sourceFilePath
      let w1 := interactiveEngineRun env testMethod testMethods tests w
      match throwIfCancelled env w1 with
      | (Except.error e, w2) => ⟨Except.error e, ktests, tests, w2⟩
      | (Except.ok _, w2) =>
        let r := classifyEach env kleeOut testMethods tests ktests w2
        ⟨Except.ok (), r.1, r.2.1, r.2.2⟩

/-! ## `runKlee` -/

/-- The map `fileToMethods`, from a source file to its methods, in insertion order. -/
abbrev FileToMethods := List (Path × List TestMethod)

/-- The statement `fileToMethods[path].push_back(method)`. -/
def pushMethod : FileToMethods → Path → TestMethod → FileToMethods
  | [], p, m => [(p, [m])]
  | (k, v) :: rest, p, m =>
    if k = p then (k, v ++ [m]) :: rest else (k, v) :: pushMethod rest p m

/-- The partition loop of `runKlee`. -/
def partitionMethods (testMethods : List TestMethod) : FileToMethods :=
  testMethods.foldl (fun acc method => pushMethod acc method.sourceFilePath method) []

/-- The read `fileToMethods[filePath]`: the batch of a file, empty when the file has none. -/
def batchOf : FileToMethods → Path → List TestMethod
  | [], _ => []
  | (k, v) :: rest, p => if k = p then v else batchOf rest p

/-- The non-interactive loop of `prepareTests`: each method of the batch is run with a fresh
chunk, cancellation is polled, and the chunk is pushed onto `ktests`. -/
def dispatchEach (env : Env) :
    List TestMethod → Tests → List MethodKtests → World → Result (List MethodKtests)
  | [], tests, ktests, w => ⟨Except.ok (), ktests, tests, w⟩
  | testMethod :: rest, tests, ktests, w =>
    let r := processBatchWithoutInteractive env [] testMethod tests w
    match r.value with
    | Except.error e => ⟨Except.error e, ktests, r.tests, r.world⟩
    | Except.ok _ =>
      match throwIfCancelled env r.world with
      | (Except.error e, w1) => ⟨Except.error e, ktests, r.tests, w1⟩
      | (Except.ok _, w1) => dispatchEach env rest r.tests (ktests ++ [r.out]) w1

/-- The lambda `prepareTests` of `runKlee`: the per-file step. Its local list `ktests` does
not outlive it; what it hands on is what it passes to the code generator. -/
def prepareTests (env : Env) (isBatched interactiveMode : Bool) (fileToMethods : FileToMethods)
    (tests : Tests) (w : World) : Result Unit :=
  let filePath := tests.sourceFilePath
  let batch := batchOf fileToMethods filePath
  if !tests.isFilePresentedInCommands then
    if isBatched then ⟨Except.ok (), (), tests, w⟩
    else ⟨Except.error (Exception.FileNotPresentedInCommandsException filePath), (), tests, w⟩
  else if !tests.isFilePresentedInArtifact then
    if isBatched then ⟨Except.ok (), (), tests, w⟩
    else ⟨Except.error (Exception.FileNotPresentedInArtifactException filePath), (), tests, w⟩
  else
    let r : Result (List MethodKtests) :=
      if interactiveMode then
        if !batch.isEmpty then processBatchWithInteractive env batch tests [] w
        else ⟨Except.ok (), [], tests, w⟩
      else dispatchEach env batch tests [] w
    match r.value with
    | Except.error e => ⟨Except.error e, (), r.tests, r.world⟩
    | Except.ok _ =>
      let tests1 := env.parseKTestsToFinalCode r.tests r.out
      let w1 : World :=
        { r.world with
          log := r.world.log ++
            [Event.parseKTestsToFinalCode r.tests r.out env.settingsContext.verbose,
             Event.sarifAddTestsToResults tests1] }
      ⟨Except.ok (), (), tests1, w1⟩

/-! ## Observations on the log -/

/-- The engine runs recorded in a log: argument vector and timeout of each, in order. -/
def engineRuns (log : List Event) : List (List String × Option Nat) :=
  log.filterMap (fun e =>
    match e with
    | Event.runKleeTask argv timeout => some (argv, timeout)
    | _ => none)

/-- The result lists handed to the code generator, as recorded in a log, in order. -/
def handedToGenerator (log : List Event) : List (List MethodKtests) :=
  log.filterMap (fun e =>
    match e with
    | Event.parseKTestsToFinalCode _ ktests _ => some ktests
    | _ => none)

/-- The files handed to the report accumulator, as recorded in a log, in order. -/
def handedToSarif (log : List Event) : List Tests :=
  log.filterMap (fun e =>
    match e with
    | Event.sarifAddTestsToResults t => some t
    | _ => none)

/-! ## A concrete environment and file system -/

/-- A sibling of an artifact: same directory, same stem, another suffix. -/
def demoSibling (p : Path) (suffix : String) : Path :=
  pathAppend (parent_path p) (stem p ++ suffix)

/-- An environment for concrete runs: artifacts end in `.ktestjson`, the markers are the
siblings `.early` and `.exec.err`, the descriptors are the `.err` files of the directory whose
name starts with the stem of the artifact, a file parses unless its text is `corrupt`, and the
engine writes nothing. -/
def demoEnv (cancelled : Nat → Bool) (timeoutPerFunction : Option Nat) : Env where
  isKtestJson := fun p => extension p == ".ktestjson"
  hasEarly := fun fs p => fsExists fs (demoSibling p ".early")
  hasInternalError := fun fs p => fsExists fs (demoSibling p ".exec.err")
  getErrorDescriptors := fun fs p =>
    (directory_iterator fs (parent_path p)).filter (fun q =>
      extension q == ".err" && beginsWith ((stem p).data ++ ['.']) (filenameChars q.data))
  TC_fromFile := fun fs p =>
    if readFile fs p == "corrupt" then none else some ⟨[⟨"x", [(readFile fs p).length]⟩]⟩
  ERROR_ID_KEY := "ERROR_ID"
  kleeOutDir := "/out"
  kleeOutDirForMethod := fun _ name => "/out/" ++ name
  kleeOutDirForFile := fun _ => "/out/shared"
  entryPointFunction := fun _ name => "klee_entry__" ++ name
  processNumberOption := "--process-number=1"
  symStdinSize := 64
  engine := fun _ _ fs => fs
  cancelled := cancelled
  parseKTestsToFinalCode := fun t _ => t
  settingsContext := ⟨timeoutPerFunction, false, false⟩

/-- A file system holding the output of earlier engine runs. -/
def demoFs : FileSystem where
  nodes :=
    [("/out", Node.dir),
     ("/out/good", Node.dir),
     ("/out/good/assembly.ll", Node.file "define"),
     ("/out/good/test1.ktestjson", Node.file "a"),
     ("/out/good/test2.ktestjson", Node.file "bc"),
     ("/out/bad", Node.dir),
     ("/out/bad/test1.ktestjson", Node.file "abc"),
     ("/out/bad/test1.ptr.err", Node.file "null pointer"),
     ("/out/bad/test1.err", Node.file "division by zero"),
     ("/out/late", Node.dir),
     ("/out/late/test1.ktestjson", Node.file "a"),
     ("/out/late/test1.early", Node.file ""),
     ("/out/late/test2.ktestjson", Node.file "b"),
     ("/out/none", Node.dir),
     ("/out/shared", Node.dir),
     ("/out/shared/klee_entry__f", Node.dir),
     ("/out/shared/klee_entry__f/test1.ktestjson", Node.file "f"),
     ("/out/shared/klee_entry__g", Node.dir),
     ("/out/shared/klee_entry__h", Node.dir),
     ("/out/shared/klee_entry__h/test1.ktestjson", Node.file "h"),
     ("/out/shared/klee_entry__h/test1.exec.err", Node.file "engine fault")]

/-- A world around `demoFs` with an empty log. -/
def demoWorld : World := ⟨demoFs, [], 0⟩

/-- A file aggregate for `a.c`, present in the build commands and in the artifact. -/
def demoTests : Tests := ⟨"a.c", true, true, ["earlier note"]⟩

/-- A method of `a.c` by name. -/
def demoMethod (name : String) : TestMethod := ⟨name, "a.bc", "a.c"⟩

/-! ## The lines of a text -/

/-- The lines of a text, read left to right with the current line kept in reverse: every
line break ends a line, and characters after the last line break make a last line. -/
def linesFrom : List Char → List Char → List (List Char)
  | [], cur => if cur = [] then [] else [cur.reverse]
  | c :: cs, cur => if c = '\n' then cur.reverse :: linesFrom cs [] else linesFrom cs (c :: cur)

/-- The lines of a text. -/
def textLines (text : String) : List String :=
  (linesFrom text.data []).map String.mk

/-! ## A second concrete file system -/

/-- A file system with marked artifacts: in `/out/mixed` one artifact carries the
early-termination marker and another the internal-error marker; in `/out/both` one artifact
carries the early-termination marker and another carries both markers. -/
def demoFsMarked : FileSystem where
  nodes :=
    [("/out", Node.dir),
     ("/out/mixed", Node.dir),
     ("/out/mixed/test1.ktestjson", Node.file "a"),
     ("/out/mixed/test1.early", Node.file ""),
     ("/out/mixed/test2.ktestjson", Node.file "b"),
     ("/out/mixed/test2.exec.err", Node.file "engine fault"),
     ("/out/both", Node.dir),
     ("/out/both/test1.ktestjson", Node.file "a"),
     ("/out/both/test1.early", Node.file ""),
     ("/out/both/test2.ktestjson", Node.file "b"),
     ("/out/both/test2.early", Node.file ""),
     ("/out/both/test2.exec.err", Node.file "engine fault")]

/-! ## Lemmas on the result chunk -/

theorem findCases_emplaceBack_self (ch : MethodKtests) (m : TestMethod) (c : UTBotKTest) :
    findCases (emplaceBack ch m c) m = some ((findCases ch m).getD [] ++ [c]) := by
  induction ch with
  | nil => simp [emplaceBack, findCases]
  | cons kv rest ih =>
    obtain ⟨k, v⟩ := kv
    by_cases h : k = m
    · simp [emplaceBack, findCases, h]
    · simp [emplaceBack, findCases, h, ih]

/-- What one pass of the loop body does to the chunk: nothing, or one case at the end of the
list of the method. -/
theorem processEntry_chunk (env : Env) (fs : FileSystem) (m : TestMethod) (st : LoopState)
    (p : Path) :
    (processEntry env fs m st p).ktestChunk = st.ktestChunk ∨
      ∃ c, (processEntry env fs m st p).ktestChunk = emplaceBack st.ktestChunk m c := by
  unfold processEntry
  split
  · split
    · exact Or.inl rfl
    · split
      · exact Or.inl rfl
      · split
        · exact Or.inl rfl
        · exact Or.inr ⟨_, rfl⟩
  · exact Or.inl rfl

theorem processEntries_append (env : Env) (fs : FileSystem) (m : TestMethod) (st : LoopState)
    (a b : List Path) :
    processEntries env fs m st (a ++ b) =
      processEntries env fs m (processEntries env fs m st a) b := by
  simp [processEntries, List.foldl_append]

theorem processEntries_cons (env : Env) (fs : FileSystem) (m : TestMethod) (st : LoopState)
    (p : Path) (l : List Path) :
    processEntries env fs m st (p :: l) =
      processEntries env fs m (processEntry env fs m st p) l := rfl

/-- Once the method has an entry, the loop only adds cases at the end of it. -/
theorem processEntries_some (env : Env) (fs : FileSystem) (m : TestMethod) (l : List Path) :
    ∀ (st : LoopState) (xs : List UTBotKTest), findCases st.ktestChunk m = some xs →
      ∃ extra, findCases (processEntries env fs m st l).ktestChunk m = some (xs ++ extra) := by
  induction l with
  | nil => intro st xs h; exact ⟨[], by simpa [processEntries] using h⟩
  | cons p l ih =>
    intro st xs h
    rw [processEntries_cons]
    rcases processEntry_chunk env fs m st p with h1 | ⟨c, h1⟩
    · obtain ⟨extra, he⟩ := ih (processEntry env fs m st p) xs (by rw [h1]; exact h)
      exact ⟨extra, he⟩
    · have h2 : findCases (processEntry env fs m st p).ktestChunk m = some (xs ++ [c]) := by
        rw [h1, findCases_emplaceBack_self, h]; rfl
      obtain ⟨extra, he⟩ := ih (processEntry env fs m st p) (xs ++ [c]) h2
      exact ⟨c :: extra, by simpa using he⟩

/-- The timeout flag, once set, stays set. -/
theorem processEntries_hasTimeout_of_set (env : Env) (fs : FileSystem) (m : TestMethod)
    (l : List Path) :
    ∀ st : LoopState, st.hasTimeout = true → (processEntries env fs m st l).hasTimeout = true := by
  induction l with
  | nil => intro st h; simpa [processEntries] using h
  | cons p l ih =>
    intro st h
    rw [processEntries_cons]
    apply ih
    unfold processEntry
    split
    · split
      · rfl
      · split
        · exact h
        · split <;> exact h
    · exact h

/-- The shape of the result of `processMethod` on an existing directory. -/
theorem processMethod_of_exists (env : Env) (ktestChunk : MethodKtests) (tests : Tests)
    (kleeOut : Path) (method : TestMethod) (w : World) (hex : fsExists w.fs kleeOut = true) :
    processMethod env ktestChunk tests kleeOut method w =
      (let fs1 := clearUnusedData w.fs kleeOut
       let st := processEntries env fs1 method ⟨false, false, ktestChunk⟩
          (directory_iterator fs1 kleeOut)
       (st.ktestChunk,
        { tests with
          commentBlocks := tests.commentBlocks
            ++ (if st.hasTimeout then [timeoutMessage method.methodName] else [])
            ++ (if st.hasError then [internalErrorMessage method.methodName] else [])
            ++ (if (findCases st.ktestChunk method).isNone
                  || (findCases st.ktestChunk method) == some []
                then [notGeneratedMessage method.methodName] else []) },
        { fs := fs1, log := w.log ++ [Event.kleeStats kleeOut], polls := w.polls })) := by
  unfold processMethod
  simp only [hex, if_true, writeKleeStats]
  split <;> split <;> split <;> simp

/-! ## Lemmas on the diagnostics and on the clean-up -/

theorem notGenerated_ne_timeout (a b : String) : notGeneratedMessage a ≠ timeoutMessage b := by
  intro h
  have h1 := congrArg String.data h
  simp only [notGeneratedMessage, timeoutMessage, String.data_append] at h1
  have h2 := congrArg List.head? h1
  simp [List.head?] at h2

theorem notGenerated_ne_internalError (a b : String) :
    notGeneratedMessage a ≠ internalErrorMessage b := by
  intro h
  have h1 := congrArg String.data h
  simp only [notGeneratedMessage, internalErrorMessage, String.data_append] at h1
  have h2 := congrArg List.head? h1
  simp [List.head?] at h2

theorem pathAppend_ne_self (d : Path) (n : String) (hn : n.length ≠ 0)
    (hrel : n.data.head? ≠ some '/') : pathAppend d n ≠ d := by
  intro h
  have hl := congrArg String.length h
  unfold pathAppend at hl
  split at hl
  · rename_i heq
    simp [heq] at hrel
  · split at hl
    · rename_i hd
      have : d.length = 0 := by simp [String.length, hd]
      omega
    · split at hl <;> simp [String.length_append] at hl <;> omega

theorem fsExists_fsRemove (fs : FileSystem) (q d : Path) (hne : q ≠ d)
    (h : fsExists fs d = true) : fsExists (fsRemove fs q) d = true := by
  simp only [fsExists, fsRemove, List.any_eq_true, List.mem_filter] at *
  obtain ⟨n, hn, hd⟩ := h
  refine ⟨n, ⟨hn, ?_⟩, hd⟩
  have : n.1 = d := by simpa using hd
  simp [this, Ne.symm hne]

theorem fsExists_clearUnusedData (fs : FileSystem) (d : Path) (h : fsExists fs d = true) :
    fsExists (clearUnusedData fs d) d = true := by
  unfold clearUnusedData
  apply fsExists_fsRemove _ _ _ (pathAppend_ne_self d "run.istats" (by decide) (by decide))
  exact fsExists_fsRemove _ _ _ (pathAppend_ne_self d "assembly.ll" (by decide) (by decide)) h

theorem clearUnusedData_idem (fs : FileSystem) (d : Path) :
    clearUnusedData (clearUnusedData fs d) d = clearUnusedData fs d := by
  simp only [clearUnusedData, fsRemove, List.filter_filter, FileSystem.mk.injEq]
  apply List.filter_congr
  intro n _
  cases (n.1 != pathAppend d "assembly.ll") <;> cases (n.1 != pathAppend d "run.istats") <;> rfl

/-- What the loop of `processMethod` enumerates: the entries of the directory other than the
two transient files. -/
theorem directory_iterator_clearUnusedData (fs : FileSystem) (d : Path) :
    directory_iterator (clearUnusedData fs d) d =
      (directory_iterator fs d).filter (fun p =>
        p != pathAppend d "assembly.ll" && p != pathAppend d "run.istats") := by
  simp only [directory_iterator, clearUnusedData, fsRemove, List.filter_filter, List.filter_map]
  congr 1
  apply List.filter_congr
  intro n _
  simp only [Function.comp]
  cases (parent_path n.1 == d) <;> cases (n.1 != pathAppend d "assembly.ll") <;>
    cases (n.1 != pathAppend d "run.istats") <;> rfl

/-- On a listing of success-type artifacts the loop adds one successful case per entry. -/
theorem processEntries_all_success (env : Env) (fs : FileSystem) (m : TestMethod)
    (l : List Path)
    (hall : ∀ p ∈ l, env.isKtestJson p = true ∧ env.hasEarly fs p = false ∧
      env.hasInternalError fs p = false ∧ (env.TC_fromFile fs p).isSome = true ∧
      env.getErrorDescriptors fs p = []) :
    ∀ st : LoopState, ∃ new : List UTBotKTest,
      (findCases (processEntries env fs m st l).ktestChunk m).getD [] =
        (findCases st.ktestChunk m).getD [] ++ new ∧
      new.length = l.length ∧
      (∀ c ∈ new, c.status = Status.SUCCESS ∧ c.errorDescriptors = []) ∧
      (processEntries env fs m st l).hasTimeout = st.hasTimeout ∧
      (processEntries env fs m st l).hasError = st.hasError := by
  induction l with
  | nil => intro st; exact ⟨[], by simp [processEntries]⟩
  | cons p l ih =>
    intro st
    obtain ⟨hk, he, hi, hp, hd⟩ := hall p (List.mem_cons_self p l)
    obtain ⟨tc, htc⟩ := Option.isSome_iff_exists.mp hp
    have hstep : processEntry env fs m st p =
        { st with ktestChunk := (emplaceBack st.ktestChunk m
            (UTBotKTest.mk (tc.objects.map UTBotKTestObject.mk) Status.SUCCESS [])) } := by
      simp [processEntry, hk, he, hi, htc, hd]
    obtain ⟨new, h1, h2, h3, h4, h5⟩ :=
      ih (fun q hq => hall q (List.mem_cons_of_mem p hq)) (processEntry env fs m st p)
    refine ⟨⟨tc.objects.map UTBotKTestObject.mk, Status.SUCCESS, []⟩ :: new, ?_, ?_, ?_, ?_, ?_⟩
    · rw [processEntries_cons, h1, hstep]
      simp [findCases_emplaceBack_self]
    · simp [h2]
    · intro c hc
      rcases List.mem_cons.mp hc with rfl | hc
      · exact ⟨rfl, rfl⟩
      · exact h3 c hc
    · rw [processEntries_cons, h4, hstep]
    · rw [processEntries_cons, h5, hstep]

/-- An artifact with the early-termination marker in the listing sets the timeout flag. -/
theorem processEntries_hasTimeout_of_mem (env : Env) (fs : FileSystem) (m : TestMethod)
    (l : List Path) (p : Path) (hp : p ∈ l) (hk : env.isKtestJson p = true)
    (he : env.hasEarly fs p = true) :
    ∀ st : LoopState, (processEntries env fs m st l).hasTimeout = true := by
  induction l with
  | nil => cases hp
  | cons q l ih =>
    intro st
    rw [processEntries_cons]
    rcases List.mem_cons.mp hp with rfl | hmem
    · apply processEntries_hasTimeout_of_set
      simp [processEntry, hk, he]
    · exact ih hmem _

/-! ## Lemmas on the runners -/

theorem engineRuns_append (a b : List Event) :
    engineRuns (a ++ b) = engineRuns a ++ engineRuns b := by
  simp [engineRuns, List.filterMap_append]

theorem handedToGenerator_append (a b : List Event) :
    handedToGenerator (a ++ b) = handedToGenerator a ++ handedToGenerator b := by
  simp [handedToGenerator, List.filterMap_append]

theorem handedToSarif_append (a b : List Event) :
    handedToSarif (a ++ b) = handedToSarif a ++ handedToSarif b := by
  simp [handedToSarif, List.filterMap_append]

/-- What `processMethod` leaves alone: the poll count, the engine runs, what was handed to the
generator and to the report accumulator, the flags and path of the file; the comment list only
grows. -/
theorem processMethod_frame (env : Env) (ktestChunk : MethodKtests) (tests : Tests)
    (kleeOut : Path) (method : TestMethod) (w : World)
    (r : MethodKtests × Tests × World)
    (hr : r = processMethod env ktestChunk tests kleeOut method w) :
    r.2.2.polls = w.polls ∧
      engineRuns r.2.2.log = engineRuns w.log ∧
      handedToGenerator r.2.2.log = handedToGenerator w.log ∧
      handedToSarif r.2.2.log = handedToSarif w.log ∧
      r.2.1.isFilePresentedInArtifact = tests.isFilePresentedInArtifact ∧
      r.2.1.isFilePresentedInCommands = tests.isFilePresentedInCommands ∧
      r.2.1.sourceFilePath = tests.sourceFilePath ∧
      ∃ diag, r.2.1.commentBlocks = tests.commentBlocks ++ diag := by
  subst hr
  cases hex : fsExists w.fs kleeOut
  · have h : processMethod env ktestChunk tests kleeOut method w = (ktestChunk, tests, w) := by
      simp [processMethod, hex]
    rw [h]
    exact ⟨rfl, rfl, rfl, rfl, rfl, rfl, rfl, [], by simp⟩
  · rw [processMethod_of_exists _ _ _ _ _ _ hex]
    refine ⟨rfl, ?_, ?_, ?_, rfl, rfl, rfl, ?_⟩
    · simp [engineRuns_append, engineRuns]
    · simp [handedToGenerator_append, handedToGenerator]
    · simp [handedToSarif_append, handedToSarif]
    · exact ⟨_, by simp only [List.append_assoc]; rfl⟩

/-- The last loop of the interactive runner pushes one chunk per method and otherwise leaves
alone what `processMethod` leaves alone. -/
theorem classifyEach_frame (env : Env) (kleeOut : Path) (l : List TestMethod) :
    ∀ (tests : Tests) (ktests : List MethodKtests) (w : World),
      (classifyEach env kleeOut l tests ktests w).1.length = ktests.length + l.length ∧
      (classifyEach env kleeOut l tests ktests w).2.2.polls = w.polls ∧
      engineRuns (classifyEach env kleeOut l tests ktests w).2.2.log = engineRuns w.log ∧
      handedToGenerator (classifyEach env kleeOut l tests ktests w).2.2.log =
        handedToGenerator w.log ∧
      handedToSarif (classifyEach env kleeOut l tests ktests w).2.2.log = handedToSarif w.log ∧
      ∃ diag, (classifyEach env kleeOut l tests ktests w).2.1.commentBlocks =
        tests.commentBlocks ++ diag := by
  induction l with
  | nil => intro tests ktests w; exact ⟨by simp [classifyEach], rfl, rfl, rfl, rfl, [], by simp [classifyEach]⟩
  | cons m rest ih =>
    intro tests ktests w
    obtain ⟨p1, p2, p3, p4, _, _, _, d1, p5⟩ := processMethod_frame env [] tests
      (pathAppend kleeOut (env.entryPointFunction tests m.methodName)) m w _ rfl
    obtain ⟨q1, q2, q3, q4, q5, d2, q6⟩ := ih
      (processMethod env [] tests (pathAppend kleeOut (env.entryPointFunction tests m.methodName))
        m w).2.1
      (ktests ++ [(processMethod env [] tests
        (pathAppend kleeOut (env.entryPointFunction tests m.methodName)) m w).1])
      (processMethod env [] tests (pathAppend kleeOut (env.entryPointFunction tests m.methodName))
        m w).2.2
    simp only [classifyEach]
    refine ⟨?_, ?_, ?_, ?_, ?_, ?_⟩
    · rw [q1]; simp; omega
    · rw [q2, p1]
    · rw [q3, p2]
    · rw [q4, p3]
    · rw [q5, p4]
    · exact ⟨d1 ++ d2, by rw [q6, p5, List.append_assoc]⟩

theorem classifyEach_out (env : Env) (kleeOut : Path) (l : List TestMethod) :
    ∀ (tests : Tests) (ktests : List MethodKtests) (w : World),
      classifyEach env kleeOut l tests ktests w =
        (ktests ++ (classifyEach env kleeOut l tests [] w).1,
          (classifyEach env kleeOut l tests [] w).2.1,
          (classifyEach env kleeOut l tests [] w).2.2) := by
  induction l with
  | nil => intro tests ktests w; simp [classifyEach]
  | cons m rest ih =>
    intro tests ktests w
    simp only [classifyEach]
    rw [ih _ (ktests ++ _), ih _ ([] ++ _)]
    simp

theorem classifyEach_append (env : Env) (kleeOut : Path) (l1 l2 : List TestMethod) :
    ∀ (tests : Tests) (ktests : List MethodKtests) (w : World),
      classifyEach env kleeOut (l1 ++ l2) tests ktests w =
        classifyEach env kleeOut l2 (classifyEach env kleeOut l1 tests ktests w).2.1
          (classifyEach env kleeOut l1 tests ktests w).1
          (classifyEach env kleeOut l1 tests ktests w).2.2 := by
  induction l1 with
  | nil => intro tests ktests w; simp [classifyEach]
  | cons m rest ih =>
    intro tests ktests w
    show classifyEach env kleeOut (m :: (rest ++ l2)) tests ktests w = _
    simp only [classifyEach]
    rw [ih]

theorem engineRuns_nonInteractiveEngineRun (env : Env) (m : TestMethod) (tests : Tests)
    (w : World) :
    engineRuns (nonInteractiveEngineRun env m tests w).log =
      engineRuns w.log ++
        [(nonInteractiveArgv env ("--entry-point=" ++ env.entryPointFunction tests m.methodName)
            ("--output-dir=" ++ env.kleeOutDirForMethod m.sourceFilePath m.methodName)
            m.bitcodeFilePath,
          env.settingsContext.timeoutPerFunction)] := by
  simp [nonInteractiveEngineRun, engineRuns_append, engineRuns]

theorem processBatchWithoutInteractive_cancelled (env : Env) (ch : MethodKtests)
    (m : TestMethod) (tests : Tests) (w : World)
    (hArt : tests.isFilePresentedInArtifact = true) (hc : env.cancelled w.polls = true) :
    processBatchWithoutInteractive env ch m tests w =
      ⟨Except.error Exception.CancellationException, ch, tests,
        { nonInteractiveEngineRun env m tests w with polls := w.polls + 1 }⟩ := by
  have hp : (nonInteractiveEngineRun env m tests w).polls = w.polls := rfl
  simp [processBatchWithoutInteractive, hArt, throwIfCancelled, hp, hc]

theorem processBatchWithoutInteractive_ok (env : Env) (ch : MethodKtests)
    (m : TestMethod) (tests : Tests) (w : World)
    (hArt : tests.isFilePresentedInArtifact = true) (hc : env.cancelled w.polls = false) :
    processBatchWithoutInteractive env ch m tests w =
      ⟨Except.ok (),
        (processMethod env ch tests (env.kleeOutDirForMethod m.sourceFilePath m.methodName) m
          { nonInteractiveEngineRun env m tests w with polls := w.polls + 1 }).1,
        (processMethod env ch tests (env.kleeOutDirForMethod m.sourceFilePath m.methodName) m
          { nonInteractiveEngineRun env m tests w with polls := w.polls + 1 }).2.1,
        (processMethod env ch tests (env.kleeOutDirForMethod m.sourceFilePath m.methodName) m
          { nonInteractiveEngineRun env m tests w with polls := w.polls + 1 }).2.2⟩ := by
  have hp : (nonInteractiveEngineRun env m tests w).polls = w.polls := rfl
  simp [processBatchWithoutInteractive, hArt, throwIfCancelled, hp, hc]

theorem processBatchWithInteractive_ok (env : Env) (testMethods : List TestMethod)
    (first : TestMethod) (tests : Tests) (ktests : List MethodKtests) (w : World)
    (hArt : tests.isFilePresentedInArtifact = true) (hfirst : testMethods.head? = some first)
    (hc : env.cancelled w.polls = false) :
    processBatchWithInteractive env testMethods tests ktests w =
      ⟨Except.ok (),
        (classifyEach env (env.kleeOutDirForFile tests.sourceFilePath) testMethods tests ktests
          { interactiveEngineRun env first testMethods tests w with polls := w.polls + 1 }).1,
        (classifyEach env (env.kleeOutDirForFile tests.sourceFilePath) testMethods tests ktests
          { interactiveEngineRun env first testMethods tests w with polls := w.polls + 1 }).2.1,
        (classifyEach env (env.kleeOutDirForFile tests.sourceFilePath) testMethods tests ktests
          { interactiveEngineRun env first testMethods tests w with polls := w.polls + 1 }).2.2⟩ := by
  have hp : (interactiveEngineRun env first testMethods tests w).polls = w.polls := rfl
  simp [processBatchWithInteractive, hArt, hfirst, throwIfCancelled, hp, hc]

theorem processBatchWithInteractive_cancelled (env : Env) (testMethods : List TestMethod)
    (first : TestMethod) (tests : Tests) (ktests : List MethodKtests) (w : World)
    (hArt : tests.isFilePresentedInArtifact = true) (hfirst : testMethods.head? = some first)
    (hc : env.cancelled w.polls = true) :
    processBatchWithInteractive env testMethods tests ktests w =
      ⟨Except.error Exception.CancellationException, ktests, tests,
        { interactiveEngineRun env first testMethods tests w with polls := w.polls + 1 }⟩ := by
  have hp : (interactiveEngineRun env first testMethods tests w).polls = w.polls := rfl
  simp [processBatchWithInteractive, hArt, hfirst, throwIfCancelled, hp, hc]

/-- Without cancellation the non-interactive loop returns normally, pushes one chunk per
method, hands nothing to the generator or the report accumulator itself, keeps the flags of the
file, and, for a file present in the artifact, runs the engine once per method. -/
theorem dispatchEach_not_cancelled (env : Env) (hnc : ∀ n, env.cancelled n = false)
    (l : List TestMethod) :
    ∀ (tests : Tests) (ktests : List MethodKtests) (w : World),
      (dispatchEach env l tests ktests w).value = Except.ok () ∧
      (dispatchEach env l tests ktests w).out.length = ktests.length + l.length ∧
      handedToGenerator (dispatchEach env l tests ktests w).world.log =
        handedToGenerator w.log ∧
      handedToSarif (dispatchEach env l tests ktests w).world.log = handedToSarif w.log ∧
      (tests.isFilePresentedInArtifact = true →
        (engineRuns (dispatchEach env l tests ktests w).world.log).length =
          (engineRuns w.log).length + l.length) := by
  induction l with
  | nil => intro tests ktests w; simp [dispatchEach]
  | cons m rest ih =>
    intro tests ktests w
    cases hArt : tests.isFilePresentedInArtifact
    · have h1 : processBatchWithoutInteractive env [] m tests w = ⟨Except.ok (), [], tests, w⟩ := by
        simp [processBatchWithoutInteractive, hArt]
      simp only [dispatchEach, h1, throwIfCancelled, hnc]
      obtain ⟨a1, a2, a3, a4, _⟩ := ih tests (ktests ++ [[]]) { w with polls := w.polls + 1 }
      refine ⟨a1, ?_, a3, a4, ?_⟩
      · simp only [Bool.false_eq_true, if_false]
        rw [a2]; simp; omega
      · intro h; cases h
    · have h1 := processBatchWithoutInteractive_ok env [] m tests w hArt (hnc _)
      obtain ⟨p1, p2, p3, p4, p5, _, _, _⟩ := processMethod_frame env [] tests
        (env.kleeOutDirForMethod m.sourceFilePath m.methodName) m
        { nonInteractiveEngineRun env m tests w with polls := w.polls + 1 } _ rfl
      simp only [dispatchEach, h1, throwIfCancelled, hnc]
      obtain ⟨a1, a2, a3, a4, a5⟩ := ih
        (processMethod env [] tests (env.kleeOutDirForMethod m.sourceFilePath m.methodName) m
          { nonInteractiveEngineRun env m tests w with polls := w.polls + 1 }).2.1
        (ktests ++ [(processMethod env [] tests
          (env.kleeOutDirForMethod m.sourceFilePath m.methodName) m
          { nonInteractiveEngineRun env m tests w with polls := w.polls + 1 }).1])
        { (processMethod env [] tests (env.kleeOutDirForMethod m.sourceFilePath m.methodName) m
            { nonInteractiveEngineRun env m tests w with polls := w.polls + 1 }).2.2 with
          polls := (processMethod env [] tests
            (env.kleeOutDirForMethod m.sourceFilePath m.methodName) m
            { nonInteractiveEngineRun env m tests w with polls := w.polls + 1 }).2.2.polls + 1 }
      simp only [Bool.false_eq_true, if_false]
      refine ⟨a1, ?_, ?_, ?_, ?_⟩
      · rw [a2]; simp; omega
      · rw [a3, p3]; simp [nonInteractiveEngineRun, handedToGenerator_append, handedToGenerator]
      · rw [a4, p4]; simp [nonInteractiveEngineRun, handedToSarif_append, handedToSarif]
      · intro _
        rw [a5 (by rw [p5]; exact hArt), p2]
        simp [engineRuns_nonInteractiveEngineRun]
        omega

/-! ## The classification of one directory -/

/-- C1 (as amended): for an artifact of the enumerated directory that parses, carries neither
marker and has at least one error-descriptor file, the loop body appends exactly one case to
the list of the method; the case has status FAILED and one descriptor string per descriptor
file, in descriptor-file order; each string is the whole text of its file, followed, only when
the stem of the file has an extension, by a newline, the error-id key, a colon and that
extension without its leading dot; and the case stays in the list `processMethod` returns. -/
theorem C1_failed_case_descriptors (env : Env) (ktestChunk : MethodKtests) (tests : Tests)
    (kleeOut : Path) (method : TestMethod) (w : World) (pre post : List Path) (p : Path)
    (tc : TestCase)
    (hex : fsExists w.fs kleeOut = true)
    (hlist : directory_iterator (clearUnusedData w.fs kleeOut) kleeOut = pre ++ p :: post)
    (hk : env.isKtestJson p = true)
    (he : env.hasEarly (clearUnusedData w.fs kleeOut) p = false)
    (hi : env.hasInternalError (clearUnusedData w.fs kleeOut) p = false)
    (hp : env.TC_fromFile (clearUnusedData w.fs kleeOut) p = some tc)
    (hd : 1 ≤ (env.getErrorDescriptors (clearUnusedData w.fs kleeOut) p).length) :
    ∃ c : UTBotKTest,
      c.status = Status.FAILED ∧
      c.objects = tc.objects.map UTBotKTestObject.mk ∧
      c.errorDescriptors.length =
        (env.getErrorDescriptors (clearUnusedData w.fs kleeOut) p).length ∧
      c.errorDescriptors =
        (env.getErrorDescriptors (clearUnusedData w.fs kleeOut) p).map (fun f =>
          if extension (stem f) = "" then readFile (clearUnusedData w.fs kleeOut) f
          else readFile (clearUnusedData w.fs kleeOut) f ++
            ("\n" ++ env.ERROR_ID_KEY ++ ":" ++ (extension (stem f)).drop 1)) ∧
      (∀ st : LoopState,
        processEntry env (clearUnusedData w.fs kleeOut) method st p =
          { st with ktestChunk := emplaceBack st.ktestChunk method c }) ∧
      ∃ after : List UTBotKTest,
        findCases (processMethod env ktestChunk tests kleeOut method w).1 method =
          some ((findCases (processEntries env (clearUnusedData w.fs kleeOut) method
              ⟨false, false, ktestChunk⟩ pre).ktestChunk method).getD [] ++ c :: after) := by
  have hne : env.getErrorDescriptors (clearUnusedData w.fs kleeOut) p ≠ [] := by
    intro h0; rw [h0] at hd; simp at hd
  have hstep : ∀ st : LoopState,
      processEntry env (clearUnusedData w.fs kleeOut) method st p =
        { st with ktestChunk := (emplaceBack st.ktestChunk method
            (UTBotKTest.mk (tc.objects.map UTBotKTestObject.mk) Status.FAILED
              ((env.getErrorDescriptors (clearUnusedData w.fs kleeOut) p).map
                (readErrorDescriptor env (clearUnusedData w.fs kleeOut))))) } := by
    intro st
    simp [processEntry, hk, he, hi, hp, hne]
  refine ⟨UTBotKTest.mk (tc.objects.map UTBotKTestObject.mk) Status.FAILED
      ((env.getErrorDescriptors (clearUnusedData w.fs kleeOut) p).map
        (readErrorDescriptor env (clearUnusedData w.fs kleeOut))), rfl, rfl, by simp, ?_, hstep, ?_⟩
  · apply List.map_congr_left
    intro f _
    by_cases hext : extension (stem f) = "" <;> simp [readErrorDescriptor, hext]
  · rw [processMethod_of_exists _ _ _ _ _ _ hex]
    simp only [hlist]
    rw [processEntries_append, processEntries_cons]
    have h2 := findCases_emplaceBack_self
      (processEntries env (clearUnusedData w.fs kleeOut) method ⟨false, false, ktestChunk⟩
        pre).ktestChunk method
      (UTBotKTest.mk (tc.objects.map UTBotKTestObject.mk) Status.FAILED
        ((env.getErrorDescriptors (clearUnusedData w.fs kleeOut) p).map
          (readErrorDescriptor env (clearUnusedData w.fs kleeOut))))
    obtain ⟨extra, hx⟩ := processEntries_some env (clearUnusedData w.fs kleeOut) method post
      (processEntry env (clearUnusedData w.fs kleeOut) method
        (processEntries env (clearUnusedData w.fs kleeOut) method ⟨false, false, ktestChunk⟩ pre)
        p) _ (by rw [hstep]; exact h2)
    exact ⟨extra, by simpa using hx⟩

/-- C2: when every entry the loop enumerates in an existing output directory is a success-type
artifact (a concretized-test file that parses, carries no marker and has no error descriptor),
the case list of the method gains exactly one case per entry, each with status SUCCESS and no
descriptor; with a fresh chunk the list is exactly these cases. -/
theorem C2_success_only_directory (env : Env) (ktestChunk : MethodKtests) (tests : Tests)
    (kleeOut : Path) (method : TestMethod) (w : World)
    (hex : fsExists w.fs kleeOut = true)
    (hall : ∀ p ∈ directory_iterator (clearUnusedData w.fs kleeOut) kleeOut,
      env.isKtestJson p = true ∧ env.hasEarly (clearUnusedData w.fs kleeOut) p = false ∧
      env.hasInternalError (clearUnusedData w.fs kleeOut) p = false ∧
      (env.TC_fromFile (clearUnusedData w.fs kleeOut) p).isSome = true ∧
      env.getErrorDescriptors (clearUnusedData w.fs kleeOut) p = []) :
    ∃ new : List UTBotKTest,
      (findCases (processMethod env ktestChunk tests kleeOut method w).1 method).getD [] =
        (findCases ktestChunk method).getD [] ++ new ∧
      new.length = (directory_iterator (clearUnusedData w.fs kleeOut) kleeOut).length ∧
      ∀ c ∈ new, c.status = Status.SUCCESS ∧ c.errorDescriptors = [] := by
  obtain ⟨new, h1, h2, h3, _, _⟩ :=
    processEntries_all_success env (clearUnusedData w.fs kleeOut) method _ hall
      ⟨false, false, ktestChunk⟩
  refine ⟨new, ?_, h2, h3⟩
  rw [processMethod_of_exists _ _ _ _ _ _ hex]
  exact h1

/-- C7: on an existing output directory, when the method ends with no entry in the chunk or
with an empty case list, the comment list gains the not-generated diagnostic of the method
exactly once, as its last element; and two calls in a row on the same directory, each with a
fresh chunk, append the same diagnostics twice. -/
theorem C7_not_generated_diagnostic (env : Env) (ktestChunk : MethodKtests) (tests : Tests)
    (kleeOut : Path) (method : TestMethod) (w : World)
    (hex : fsExists w.fs kleeOut = true) :
    ((findCases (processMethod env ktestChunk tests kleeOut method w).1 method = none ∨
        findCases (processMethod env ktestChunk tests kleeOut method w).1 method = some []) →
      ∃ earlier : List String,
        (processMethod env ktestChunk tests kleeOut method w).2.1.commentBlocks =
          tests.commentBlocks ++ earlier ++ [notGeneratedMessage method.methodName] ∧
        notGeneratedMessage method.methodName ∉ earlier) ∧
    ((findCases (processMethod env [] tests kleeOut method w).1 method = none ∨
        findCases (processMethod env [] tests kleeOut method w).1 method = some []) →
      ∃ earlier : List String,
        notGeneratedMessage method.methodName ∉ earlier ∧
        (processMethod env [] tests kleeOut method w).2.1.commentBlocks =
          tests.commentBlocks ++ earlier ++ [notGeneratedMessage method.methodName] ∧
        (processMethod env [] (processMethod env [] tests kleeOut method w).2.1 kleeOut method
            (processMethod env [] tests kleeOut method w).2.2).2.1.commentBlocks =
          tests.commentBlocks ++ earlier ++ [notGeneratedMessage method.methodName]
            ++ earlier ++ [notGeneratedMessage method.methodName]) := by
  have key : ∀ (chunk : MethodKtests) (t : Tests) (w0 : World),
      fsExists w0.fs kleeOut = true →
      (findCases (processMethod env chunk t kleeOut method w0).1 method = none ∨
        findCases (processMethod env chunk t kleeOut method w0).1 method = some []) →
      (processMethod env chunk t kleeOut method w0).2.1.commentBlocks =
          t.commentBlocks ++
            ((if (processEntries env (clearUnusedData w0.fs kleeOut) method ⟨false, false, chunk⟩
                (directory_iterator (clearUnusedData w0.fs kleeOut) kleeOut)).hasTimeout
              then [timeoutMessage method.methodName] else []) ++
             (if (processEntries env (clearUnusedData w0.fs kleeOut) method ⟨false, false, chunk⟩
                (directory_iterator (clearUnusedData w0.fs kleeOut) kleeOut)).hasError
              then [internalErrorMessage method.methodName] else []))
            ++ [notGeneratedMessage method.methodName] := by
    intro chunk t w0 hex0 hempty
    rw [processMethod_of_exists _ _ _ _ _ _ hex0] at hempty ⊢
    simp only at hempty ⊢
    rcases hempty with h | h <;> simp [h]
  have hnot : ∀ (b1 b2 : Bool),
      notGeneratedMessage method.methodName ∉
        ((if b1 then [timeoutMessage method.methodName] else []) ++
          (if b2 then [internalErrorMessage method.methodName] else [])) := by
    intro b1 b2 hmem
    rcases List.mem_append.mp hmem with h | h
    · cases b1
      · simp at h
      · simp at h
        exact notGenerated_ne_timeout _ _ h
    · cases b2
      · simp at h
      · simp at h
        exact notGenerated_ne_internalError _ _ h
  refine ⟨fun hempty => ⟨_, key ktestChunk tests w hex hempty, hnot _ _⟩, fun hempty => ?_⟩
  have h1 := key [] tests w hex hempty
  have hw : (processMethod env [] tests kleeOut method w).2.2.fs = clearUnusedData w.fs kleeOut := by
    rw [processMethod_of_exists _ _ _ _ _ _ hex]
  have hex2 : fsExists (processMethod env [] tests kleeOut method w).2.2.fs kleeOut = true := by
    rw [hw]; exact fsExists_clearUnusedData _ _ hex
  have hsame : (processMethod env []
      (processMethod env [] tests kleeOut method w).2.1 kleeOut method
      (processMethod env [] tests kleeOut method w).2.2).1 =
      (processMethod env [] tests kleeOut method w).1 := by
    rw [processMethod_of_exists _ _ _ _ _ _ hex2, hw, clearUnusedData_idem,
      processMethod_of_exists _ _ _ _ _ _ hex]
  have h2 := key [] (processMethod env [] tests kleeOut method w).2.1
    (processMethod env [] tests kleeOut method w).2.2 hex2 (by rw [hsame]; exact hempty)
  rw [hw, clearUnusedData_idem, h1] at h2
  exact ⟨_, hnot _ _, h1, h2⟩

/-- C8: on an existing output directory, when an enumerated concretized-test artifact carries
the early-termination marker, the comment list after `processMethod` holds the timeout message
of the method, whatever else the directory holds; and the loop body only sets the flag for
that artifact: it adds no case. -/
theorem C8_timeout_message (env : Env) (ktestChunk : MethodKtests) (tests : Tests)
    (kleeOut : Path) (method : TestMethod) (w : World) (p : Path)
    (hex : fsExists w.fs kleeOut = true)
    (hp : p ∈ directory_iterator (clearUnusedData w.fs kleeOut) kleeOut)
    (hk : env.isKtestJson p = true)
    (he : env.hasEarly (clearUnusedData w.fs kleeOut) p = true) :
    timeoutMessage method.methodName ∈
        (processMethod env ktestChunk tests kleeOut method w).2.1.commentBlocks ∧
      ∀ st : LoopState,
        processEntry env (clearUnusedData w.fs kleeOut) method st p =
          { st with hasTimeout := true } := by
  constructor
  · rw [processMethod_of_exists _ _ _ _ _ _ hex]
    have hflag := processEntries_hasTimeout_of_mem env (clearUnusedData w.fs kleeOut) method _ p
      hp hk he ⟨false, false, ktestChunk⟩
    simp [hflag]
  · intro st
    simp [processEntry, hk, he]

/-- C9: when the output directory does not exist, `processMethod` returns its arguments as
they were: the chunk gains no entry, the comment list is unchanged, and the log gains no
statistics call. -/
theorem C9_absent_directory_is_noop (env : Env) (ktestChunk : MethodKtests) (tests : Tests)
    (kleeOut : Path) (method : TestMethod) (w : World)
    (hex : fsExists w.fs kleeOut = false) :
    processMethod env ktestChunk tests kleeOut method w = (ktestChunk, tests, w) ∧
      findCases (processMethod env ktestChunk tests kleeOut method w).1 method =
        findCases ktestChunk method ∧
      (processMethod env ktestChunk tests kleeOut method w).2.1.commentBlocks =
        tests.commentBlocks ∧
      (processMethod env ktestChunk tests kleeOut method w).2.2.log = w.log := by
  have h : processMethod env ktestChunk tests kleeOut method w = (ktestChunk, tests, w) := by
    simp [processMethod, hex]
  simp [h]

/-! ## The per-file step and the two runners -/

/-- C3: in batched mode a file with either precondition flag false makes the per-file step
return normally with the file aggregate and the world exactly as they were (no engine run, no
classification, no comment, nothing handed to the generator or the report accumulator); a file
with both flags true is still processed: without cancellation the step returns normally, runs
the engine (once per method, or once for a non-empty batch in interactive mode), and hands one
chunk per method of the batch to the generator and the file to the report accumulator. -/
theorem C3_batched_precondition_skip (env : Env) (interactiveMode : Bool)
    (fileToMethods : FileToMethods) (tests : Tests) (w : World) :
    ((tests.isFilePresentedInCommands = false ∨ tests.isFilePresentedInArtifact = false) →
      (prepareTests env true interactiveMode fileToMethods tests w).value = Except.ok () ∧
      (prepareTests env true interactiveMode fileToMethods tests w).tests = tests ∧
      (prepareTests env true interactiveMode fileToMethods tests w).world = w) ∧
    (tests.isFilePresentedInCommands = true → tests.isFilePresentedInArtifact = true →
      (∀ n, env.cancelled n = false) →
      (prepareTests env true interactiveMode fileToMethods tests w).value = Except.ok () ∧
      (engineRuns (prepareTests env true interactiveMode fileToMethods tests w).world.log).length =
        (engineRuns w.log).length +
          (if interactiveMode then
            (if (batchOf fileToMethods tests.sourceFilePath).isEmpty then 0 else 1)
           else (batchOf fileToMethods tests.sourceFilePath).length) ∧
      handedToSarif (prepareTests env true interactiveMode fileToMethods tests w).world.log =
        handedToSarif w.log ++ [(prepareTests env true interactiveMode fileToMethods tests w).tests] ∧
      ∃ ktests : List MethodKtests,
        ktests.length = (batchOf fileToMethods tests.sourceFilePath).length ∧
        handedToGenerator (prepareTests env true interactiveMode fileToMethods tests w).world.log =
          handedToGenerator w.log ++ [ktests]) := by
  constructor
  · intro h
    rcases h with h | h
    · simp [prepareTests, h]
    · cases hc : tests.isFilePresentedInCommands <;> simp [prepareTests, h, hc]
  · intro hCmd hArt hnc
    cases interactiveMode
    · obtain ⟨a1, a2, a3, a4, a5⟩ := dispatchEach_not_cancelled env hnc
        (batchOf fileToMethods tests.sourceFilePath) tests [] w
      simp only [prepareTests, hCmd, hArt, Bool.not_true, Bool.false_eq_true, if_false, a1]
      refine ⟨by trivial, ?_, ?_,
        (dispatchEach env (batchOf fileToMethods tests.sourceFilePath) tests [] w).out, ?_, ?_⟩
      · rw [engineRuns_append, List.length_append, a5 hArt]; simp [engineRuns]
      · rw [handedToSarif_append, a4]; simp [handedToSarif]
      · simpa using a2
      · rw [handedToGenerator_append, a3]; simp [handedToGenerator]
    · cases hb : batchOf fileToMethods tests.sourceFilePath with
      | nil =>
        simp [prepareTests, hCmd, hArt, hb, engineRuns_append, engineRuns, handedToSarif_append,
          handedToSarif, handedToGenerator_append, handedToGenerator]
      | cons first rest =>
        have h1 := processBatchWithInteractive_ok env (first :: rest) first tests [] w hArt rfl
          (hnc _)
        obtain ⟨c1, _, c3, c4, c5, _⟩ := classifyEach_frame env
          (env.kleeOutDirForFile tests.sourceFilePath) (first :: rest) tests []
          { interactiveEngineRun env first (first :: rest) tests w with polls := w.polls + 1 }
        simp only [prepareTests, hCmd, hArt, hb, Bool.not_true, Bool.false_eq_true, if_false,
          if_true, List.isEmpty_cons, Bool.not_false, h1]
        refine ⟨by trivial, ?_, ?_,
          (classifyEach env (env.kleeOutDirForFile tests.sourceFilePath) (first :: rest) tests []
            { interactiveEngineRun env first (first :: rest) tests w with
              polls := w.polls + 1 }).1, ?_, ?_⟩
        · rw [engineRuns_append, List.length_append, c3]
          simp [engineRuns_append, engineRuns, interactiveEngineRun]
        · rw [handedToSarif_append, c5]
          simp [handedToSarif_append, handedToSarif, interactiveEngineRun]
        · simpa using c1
        · rw [handedToGenerator_append, c4]
          simp [handedToGenerator_append, handedToGenerator, interactiveEngineRun]

/-- C4: in non-batched mode a file absent from the build commands makes the per-file step
raise the file-absent-from-build-commands condition, whatever its artifact flag, and a file
present in the build commands but absent from the artifact makes it raise the
file-absent-from-artifact condition, a different one; in both cases the file aggregate and the
world are exactly as they were, so nothing was run or classified before. -/
theorem C4_non_batched_precondition_abort (env : Env) (interactiveMode : Bool)
    (fileToMethods : FileToMethods) (tests : Tests) (w : World) :
    (tests.isFilePresentedInCommands = false →
      (prepareTests env false interactiveMode fileToMethods tests w).value =
        Except.error (Exception.FileNotPresentedInCommandsException tests.sourceFilePath) ∧
      (prepareTests env false interactiveMode fileToMethods tests w).tests = tests ∧
      (prepareTests env false interactiveMode fileToMethods tests w).world = w) ∧
    (tests.isFilePresentedInCommands = true → tests.isFilePresentedInArtifact = false →
      (prepareTests env false interactiveMode fileToMethods tests w).value =
        Except.error (Exception.FileNotPresentedInArtifactException tests.sourceFilePath) ∧
      (prepareTests env false interactiveMode fileToMethods tests w).tests = tests ∧
      (prepareTests env false interactiveMode fileToMethods tests w).world = w) ∧
    Exception.FileNotPresentedInCommandsException tests.sourceFilePath ≠
      Exception.FileNotPresentedInArtifactException tests.sourceFilePath := by
  refine ⟨fun h => by simp [prepareTests, h], fun h1 h2 => by simp [prepareTests, h1, h2], ?_⟩
  intro h; cases h

/-- C5 (as amended): in non-interactive mode, for a dispatched file whose batch starts with a
method `m1` (three methods in the stated case), when cancellation is first seen by one of the
two polls that follow the engine run of `m1`, the per-file step ends with the cancellation
condition, the engine has run exactly once (for `m1`; no later method is invoked), nothing is
handed to the generator or the report accumulator, and the local result list holds no chunk
when the condition is raised. What was done in place is kept and not rolled back: when the
poll inside the runner sees the cancellation, `m1` was not classified and the file aggregate is
as it was; when the poll after the runner sees it, the file aggregate and the file system are
exactly those the classification of `m1` left, with every diagnostic it appended to the
comment list. -/
theorem C5_cancellation_after_first_method (env : Env) (isBatched : Bool)
    (fileToMethods : FileToMethods) (tests : Tests) (w : World) (m1 : TestMethod)
    (rest : List TestMethod)
    (hCmd : tests.isFilePresentedInCommands = true)
    (hArt : tests.isFilePresentedInArtifact = true)
    (hb : batchOf fileToMethods tests.sourceFilePath = m1 :: rest)
    (hcancel : env.cancelled w.polls = true ∨
      (env.cancelled w.polls = false ∧ env.cancelled (w.polls + 1) = true)) :
    (prepareTests env isBatched false fileToMethods tests w).value =
        Except.error Exception.CancellationException ∧
      engineRuns (prepareTests env isBatched false fileToMethods tests w).world.log =
        engineRuns w.log ++
          [(nonInteractiveArgv env ("--entry-point=" ++ env.entryPointFunction tests m1.methodName)
              ("--output-dir=" ++ env.kleeOutDirForMethod m1.sourceFilePath m1.methodName)
              m1.bitcodeFilePath,
            env.settingsContext.timeoutPerFunction)] ∧
      handedToGenerator (prepareTests env isBatched false fileToMethods tests w).world.log =
        handedToGenerator w.log ∧
      handedToSarif (prepareTests env isBatched false fileToMethods tests w).world.log =
        handedToSarif w.log ∧
      (dispatchEach env (m1 :: rest) tests [] w).out = [] ∧
      (∃ diag, (prepareTests env isBatched false fileToMethods tests w).tests.commentBlocks =
        tests.commentBlocks ++ diag) ∧
      (env.cancelled w.polls = true →
        (prepareTests env isBatched false fileToMethods tests w).tests = tests ∧
        (prepareTests env isBatched false fileToMethods tests w).world =
          { nonInteractiveEngineRun env m1 tests w with polls := w.polls + 1 }) ∧
      (env.cancelled w.polls = false →
        (prepareTests env isBatched false fileToMethods tests w).tests =
          (processMethod env [] tests (env.kleeOutDirForMethod m1.sourceFilePath m1.methodName) m1
            { nonInteractiveEngineRun env m1 tests w with polls := w.polls + 1 }).2.1 ∧
        (prepareTests env isBatched false fileToMethods tests w).world =
          { (processMethod env [] tests (env.kleeOutDirForMethod m1.sourceFilePath m1.methodName)
              m1 { nonInteractiveEngineRun env m1 tests w with polls := w.polls + 1 }).2.2 with
            polls := w.polls + 2 }) := by
  rcases hcancel with hc | ⟨hc0, hc1⟩
  · have h1 := processBatchWithoutInteractive_cancelled env [] m1 tests w hArt hc
    have hd : dispatchEach env (m1 :: rest) tests [] w =
        ⟨Except.error Exception.CancellationException, [], tests,
          { nonInteractiveEngineRun env m1 tests w with polls := w.polls + 1 }⟩ := by
      simp only [dispatchEach, h1]
    have hprep : prepareTests env isBatched false fileToMethods tests w =
        ⟨Except.error Exception.CancellationException, (), tests,
          { nonInteractiveEngineRun env m1 tests w with polls := w.polls + 1 }⟩ := by
      simp only [prepareTests, hCmd, hArt, hb, Bool.not_true, Bool.false_eq_true, if_false, hd]
    rw [hprep, hd]
    refine ⟨rfl, ?_, ?_, ?_, rfl, ⟨[], by simp⟩, fun _ => ⟨rfl, rfl⟩, ?_⟩
    · exact engineRuns_nonInteractiveEngineRun env m1 tests w
    · simp [nonInteractiveEngineRun, handedToGenerator_append, handedToGenerator]
    · simp [nonInteractiveEngineRun, handedToSarif_append, handedToSarif]
    · intro h; rw [hc] at h; cases h
  · have h1 := processBatchWithoutInteractive_ok env [] m1 tests w hArt hc0
    obtain ⟨p1, p2, p3, p4, _, _, _, diag, p8⟩ := processMethod_frame env [] tests
      (env.kleeOutDirForMethod m1.sourceFilePath m1.methodName) m1
      { nonInteractiveEngineRun env m1 tests w with polls := w.polls + 1 } _ rfl
    have hpoll : env.cancelled (processMethod env [] tests
        (env.kleeOutDirForMethod m1.sourceFilePath m1.methodName) m1
        { nonInteractiveEngineRun env m1 tests w with polls := w.polls + 1 }).2.2.polls = true := by
      rw [p1]; exact hc1
    have hd : dispatchEach env (m1 :: rest) tests [] w =
        ⟨Except.error Exception.CancellationException, [],
          (processMethod env [] tests (env.kleeOutDirForMethod m1.sourceFilePath m1.methodName) m1
            { nonInteractiveEngineRun env m1 tests w with polls := w.polls + 1 }).2.1,
          { (processMethod env [] tests (env.kleeOutDirForMethod m1.sourceFilePath m1.methodName)
              m1 { nonInteractiveEngineRun env m1 tests w with polls := w.polls + 1 }).2.2 with
            polls := (processMethod env [] tests
              (env.kleeOutDirForMethod m1.sourceFilePath m1.methodName) m1
              { nonInteractiveEngineRun env m1 tests w with polls := w.polls + 1 }).2.2.polls + 1 }⟩ := by
      simp only [dispatchEach, h1, throwIfCancelled, hpoll, if_true]
    have hprep : prepareTests env isBatched false fileToMethods tests w =
        ⟨Except.error Exception.CancellationException, (),
          (processMethod env [] tests (env.kleeOutDirForMethod m1.sourceFilePath m1.methodName) m1
            { nonInteractiveEngineRun env m1 tests w with polls := w.polls + 1 }).2.1,
          { (processMethod env [] tests (env.kleeOutDirForMethod m1.sourceFilePath m1.methodName)
              m1 { nonInteractiveEngineRun env m1 tests w with polls := w.polls + 1 }).2.2 with
            polls := (processMethod env [] tests
              (env.kleeOutDirForMethod m1.sourceFilePath m1.methodName) m1
              { nonInteractiveEngineRun env m1 tests w with polls := w.polls + 1 }).2.2.polls + 1 }⟩ := by
      simp only [prepareTests, hCmd, hArt, hb, Bool.not_true, Bool.false_eq_true, if_false, hd]
    rw [hprep, hd]
    refine ⟨rfl, ?_, ?_, ?_, rfl, ⟨diag, p8⟩, ?_, fun _ => ⟨rfl, ?_⟩⟩
    · show engineRuns (processMethod env [] tests _ m1 _).2.2.log = _
      rw [p2]; exact engineRuns_nonInteractiveEngineRun env m1 tests w
    · show handedToGenerator (processMethod env [] tests _ m1 _).2.2.log = _
      rw [p3]; simp [nonInteractiveEngineRun, handedToGenerator_append, handedToGenerator]
    · show handedToSarif (processMethod env [] tests _ m1 _).2.2.log = _
      rw [p4]; simp [nonInteractiveEngineRun, handedToSarif_append, handedToSarif]
    · intro h; rw [hc0] at h; cases h
    · show ({ (processMethod env [] tests _ m1 _).2.2 with polls := _ } : World) = _
      rw [p1]

/-- The chunk the last loop of the interactive runner pushes for a method in the middle of
the batch. -/
theorem classifyEach_mid (env : Env) (kleeOut : Path) (a b : List TestMethod)
    (m : TestMethod) (tests : Tests) (w : World) :
    (classifyEach env kleeOut (a ++ m :: b) tests [] w).1[a.length]? =
      some (processMethod env [] (classifyEach env kleeOut a tests [] w).2.1
        (pathAppend kleeOut
          (env.entryPointFunction (classifyEach env kleeOut a tests [] w).2.1 m.methodName))
        m (classifyEach env kleeOut a tests [] w).2.2).1 := by
  have hlen : (classifyEach env kleeOut a tests [] w).1.length = a.length := by
    rw [(classifyEach_frame env kleeOut a tests [] w).1]; simp
  rw [classifyEach_append]
  simp only [classifyEach]
  rw [classifyEach_out]
  simp only []
  rw [List.append_assoc, List.getElem?_append_right (by omega), hlen]
  simp

/-- C6: for a file present in the artifact, a non-empty batch and no cancellation at the poll
that follows the engine run, `processBatchWithInteractive` returns normally and appends to the
result list of the caller exactly one chunk per method of the batch, in batch order; the i-th
chunk is what `processMethod` returns, from a fresh chunk, for the i-th method on the
sub-directory of the shared output root named by the entry-point symbol of that method, in the
state left by the classification of the methods before it. -/
theorem C6_interactive_one_chunk_per_method (env : Env) (testMethods : List TestMethod)
    (tests : Tests) (ktests : List MethodKtests) (w : World)
    (hArt : tests.isFilePresentedInArtifact = true)
    (hne : testMethods ≠ [])
    (hc : env.cancelled w.polls = false) :
    (processBatchWithInteractive env testMethods tests ktests w).value = Except.ok () ∧
      ∃ (first : TestMethod) (chunks : List MethodKtests),
        testMethods.head? = some first ∧
        (processBatchWithInteractive env testMethods tests ktests w).out = ktests ++ chunks ∧
        chunks.length = testMethods.length ∧
        ∀ (i : Nat) (m : TestMethod), testMethods[i]? = some m →
          chunks[i]? = some (processMethod env []
            (classifyEach env (env.kleeOutDirForFile tests.sourceFilePath) (testMethods.take i)
              tests [] { interactiveEngineRun env first testMethods tests w with
                polls := w.polls + 1 }).2.1
            (pathAppend (env.kleeOutDirForFile tests.sourceFilePath)
              (env.entryPointFunction
                (classifyEach env (env.kleeOutDirForFile tests.sourceFilePath)
                  (testMethods.take i) tests []
                  { interactiveEngineRun env first testMethods tests w with
                    polls := w.polls + 1 }).2.1
                m.methodName))
            m
            (classifyEach env (env.kleeOutDirForFile tests.sourceFilePath) (testMethods.take i)
              tests [] { interactiveEngineRun env first testMethods tests w with
                polls := w.polls + 1 }).2.2).1 := by
  obtain ⟨first, hfirst⟩ : ∃ first, testMethods.head? = some first := by
    cases testMethods with
    | nil => exact absurd rfl hne
    | cons a l => exact ⟨a, rfl⟩
  have h1 := processBatchWithInteractive_ok env testMethods first tests ktests w hArt hfirst hc
  rw [h1]
  refine ⟨rfl, first, (classifyEach env (env.kleeOutDirForFile tests.sourceFilePath) testMethods
    tests [] { interactiveEngineRun env first testMethods tests w with
      polls := w.polls + 1 }).1, hfirst, ?_, ?_, ?_⟩
  · show (classifyEach _ _ _ _ ktests _).1 = _
    rw [classifyEach_out]
  · have := (classifyEach_frame env (env.kleeOutDirForFile tests.sourceFilePath) testMethods
      tests [] { interactiveEngineRun env first testMethods tests w with
        polls := w.polls + 1 }).1
    simpa using this
  · intro i m him
    have hi : i < testMethods.length := by
      rcases Nat.lt_or_ge i testMethods.length with h | h
      · exact h
      · rw [List.getElem?_eq_none h] at him; cases him
    have hm : testMethods[i] = m := by
      rw [List.getElem?_eq_getElem hi] at him
      exact Option.some.inj him
    have hsplit : testMethods.take i ++ m :: testMethods.drop (i + 1) = testMethods := by
      rw [← hm, ← List.drop_eq_getElem_cons hi, List.take_append_drop]
    have hmid := classifyEach_mid env (env.kleeOutDirForFile tests.sourceFilePath)
      (testMethods.take i) (testMethods.drop (i + 1)) m tests
      { interactiveEngineRun env first testMethods tests w with polls := w.polls + 1 }
    rw [hsplit, List.length_take, Nat.min_eq_left (Nat.le_of_lt hi)] at hmid
    exact hmid

/-- C10: the task of an interactive run of a batch of N methods gets the timeout
`timeoutPerFunction * N` when a per-function timeout is set and no timeout when none is set;
the task of a non-interactive run gets `timeoutPerFunction` as it is. Each call runs the engine
exactly once, for a file present in the artifact. -/
theorem C10_task_timeouts (env : Env) (tests : Tests) (w : World)
    (hArt : tests.isFilePresentedInArtifact = true) :
    (∀ (testMethods : List TestMethod) (ktests : List MethodKtests), testMethods ≠ [] →
      ∃ argv, engineRuns (processBatchWithInteractive env testMethods tests ktests w).world.log =
        engineRuns w.log ++
          [(argv, match env.settingsContext.timeoutPerFunction with
                  | some t => some (t * testMethods.length)
                  | none => none)]) ∧
    (∀ (ktestChunk : MethodKtests) (testMethod : TestMethod),
      ∃ argv, engineRuns (processBatchWithoutInteractive env ktestChunk testMethod tests w).world.log =
        engineRuns w.log ++ [(argv, env.settingsContext.timeoutPerFunction)]) := by
  constructor
  · intro testMethods ktests hne
    obtain ⟨first, hfirst⟩ : ∃ first, testMethods.head? = some first := by
      cases testMethods with
      | nil => exact absurd rfl hne
      | cons a l => exact ⟨a, rfl⟩
    have hrun : ∃ argv, engineRuns (interactiveEngineRun env first testMethods tests w).log =
        engineRuns w.log ++
          [(argv, match env.settingsContext.timeoutPerFunction with
                  | some t => some (t * testMethods.length)
                  | none => none)] := by
      refine ⟨interactiveArgv env ("--entry-point=" ++ env.entryPointFunction tests first.methodName)
        ("--entrypoints-file=" ++
          pathAppend (parent_path (env.kleeOutDirForFile tests.sourceFilePath)) "entrypoints.txt")
        ("--output-dir=" ++ env.kleeOutDirForFile tests.sourceFilePath) first.bitcodeFilePath, ?_⟩
      simp only [interactiveEngineRun, engineRuns_append, interactiveTimeout]
      cases env.settingsContext.timeoutPerFunction <;> rfl
    obtain ⟨argv, hargv⟩ := hrun
    refine ⟨argv, ?_⟩
    cases hc : env.cancelled w.polls
    · rw [processBatchWithInteractive_ok env testMethods first tests ktests w hArt hfirst hc]
      rw [(classifyEach_frame env _ testMethods tests ktests _).2.2.1]
      exact hargv
    · rw [processBatchWithInteractive_cancelled env testMethods first tests ktests w hArt hfirst hc]
      exact hargv
  · intro ktestChunk testMethod
    refine ⟨nonInteractiveArgv env
      ("--entry-point=" ++ env.entryPointFunction tests testMethod.methodName)
      ("--output-dir=" ++ env.kleeOutDirForMethod testMethod.sourceFilePath testMethod.methodName)
      testMethod.bitcodeFilePath, ?_⟩
    cases hc : env.cancelled w.polls
    · rw [processBatchWithoutInteractive_ok env ktestChunk testMethod tests w hArt hc]
      rw [(processMethod_frame env ktestChunk tests _ testMethod _ _ rfl).2.1]
      exact engineRuns_nonInteractiveEngineRun env testMethod tests w
    · rw [processBatchWithoutInteractive_cancelled env ktestChunk testMethod tests w hArt hc]
      exact engineRuns_nonInteractiveEngineRun env testMethod tests w

/-! ## Concrete runs of the classification -/

/-- C1 (as amended) at a concrete input: the artifact `test1.ktestjson` of `/out/bad` with
its two descriptor files gives one FAILED case with two descriptor strings, in file order. -/
theorem C1_failed_case_descriptors_witness :
    fsExists demoWorld.fs "/out/bad" = true ∧
      ∃ (c : UTBotKTest) (after : List UTBotKTest),
        c.status = Status.FAILED ∧
        c.errorDescriptors = ["null pointer\nERROR_ID:ptr", "division by zero"] ∧
        findCases (processMethod (demoEnv (fun _ => false) none) [] demoTests "/out/bad"
          (demoMethod "bad") demoWorld).1 (demoMethod "bad") = some (c :: after) := by
  refine ⟨by decide, ?_⟩
  obtain ⟨c, hs, _, _, hdesc, _, after, hfind⟩ :=
    C1_failed_case_descriptors (demoEnv (fun _ => false) none) [] demoTests "/out/bad"
      (demoMethod "bad") demoWorld [] ["/out/bad/test1.ptr.err", "/out/bad/test1.err"]
      "/out/bad/test1.ktestjson" ⟨[⟨"x", [3]⟩]⟩
      (by decide) (by decide) (by decide) (by decide) (by decide) (by decide) (by decide)
  refine ⟨c, after, hs, ?_, ?_⟩
  · rw [hdesc]; decide
  · simpa [processEntries] using hfind

/-- C1 (as stated) fails: in `/out/bad` the artifact `test1.ktestjson` has the two descriptor
files `test1.ptr.err` and `test1.err`; the stem of the second has no extension, and its
descriptor string is the text of the file alone, with no key and no token appended. -/
theorem C1_counterexample :
    (demoEnv (fun _ => false) none).getErrorDescriptors (clearUnusedData demoFs "/out/bad")
        "/out/bad/test1.ktestjson" = ["/out/bad/test1.ptr.err", "/out/bad/test1.err"] ∧
      findCases (processMethod (demoEnv (fun _ => false) none) [] demoTests "/out/bad"
          (demoMethod "bad") demoWorld).1 (demoMethod "bad") =
        some [⟨[⟨⟨"x", [3]⟩⟩], Status.FAILED, ["null pointer\nERROR_ID:ptr", "division by zero"]⟩] ∧
      ¬ (∀ c ∈ (findCases (processMethod (demoEnv (fun _ => false) none) [] demoTests "/out/bad"
            (demoMethod "bad") demoWorld).1 (demoMethod "bad")).getD [],
          c.errorDescriptors =
            ((demoEnv (fun _ => false) none).getErrorDescriptors
                (clearUnusedData demoFs "/out/bad") "/out/bad/test1.ktestjson").map (fun f =>
              readFile (clearUnusedData demoFs "/out/bad") f ++
                ("\n" ++ (demoEnv (fun _ => false) none).ERROR_ID_KEY ++ ":" ++
                  (extension (stem f)).drop 1))) := by
  decide

/-- C2 at a concrete input: `/out/good` holds, once the transient file is removed, two
success-type artifacts, and the method gets two cases, both SUCCESS without descriptors. -/
theorem C2_success_only_directory_witness :
    fsExists demoWorld.fs "/out/good" = true ∧
      directory_iterator (clearUnusedData demoWorld.fs "/out/good") "/out/good" =
        ["/out/good/test1.ktestjson", "/out/good/test2.ktestjson"] ∧
      ∃ new : List UTBotKTest,
        (findCases (processMethod (demoEnv (fun _ => false) none) [] demoTests "/out/good"
          (demoMethod "good") demoWorld).1 (demoMethod "good")).getD [] = new ∧
        new.length = 2 ∧ ∀ c ∈ new, c.status = Status.SUCCESS ∧ c.errorDescriptors = [] := by
  refine ⟨by decide, by decide, ?_⟩
  obtain ⟨new, h1, h2, h3⟩ :=
    C2_success_only_directory (demoEnv (fun _ => false) none) [] demoTests "/out/good"
      (demoMethod "good") demoWorld (by decide) (by decide)
  exact ⟨new, by simpa [findCases] using h1, h2, h3⟩

/-- C7 at a concrete input: the empty directory `/out/none` gives the not-generated
diagnostic once per call, twice after two calls. -/
theorem C7_not_generated_diagnostic_witness :
    fsExists demoWorld.fs "/out/none" = true ∧
      ∃ earlier : List String,
        notGeneratedMessage "none" ∉ earlier ∧
        (processMethod (demoEnv (fun _ => false) none) [] demoTests "/out/none"
          (demoMethod "none") demoWorld).2.1.commentBlocks =
          ["earlier note"] ++ earlier ++ [notGeneratedMessage "none"] ∧
        (processMethod (demoEnv (fun _ => false) none) []
          (processMethod (demoEnv (fun _ => false) none) [] demoTests "/out/none"
            (demoMethod "none") demoWorld).2.1 "/out/none" (demoMethod "none")
          (processMethod (demoEnv (fun _ => false) none) [] demoTests "/out/none"
            (demoMethod "none") demoWorld).2.2).2.1.commentBlocks =
          ["earlier note"] ++ earlier ++ [notGeneratedMessage "none"] ++ earlier ++
            [notGeneratedMessage "none"] :=
  ⟨by decide,
    (C7_not_generated_diagnostic (demoEnv (fun _ => false) none) [] demoTests "/out/none"
      (demoMethod "none") demoWorld (by decide)).2 (by decide)⟩

/-- C8 at a concrete input: in `/out/late` the artifact `test1.ktestjson` carries the
early-termination marker, and the comment list ends up with the timeout message. -/
theorem C8_timeout_message_witness :
    fsExists demoWorld.fs "/out/late" = true ∧
      timeoutMessage "late" ∈
        (processMethod (demoEnv (fun _ => false) none) [] demoTests "/out/late"
          (demoMethod "late") demoWorld).2.1.commentBlocks :=
  ⟨by decide,
    (C8_timeout_message (demoEnv (fun _ => false) none) [] demoTests "/out/late"
      (demoMethod "late") demoWorld "/out/late/test1.ktestjson"
      (by decide) (by decide) (by decide) (by decide)).1⟩

/-- C9 at a concrete input: `/out/missing` does not exist and the call changes nothing. -/
theorem C9_absent_directory_is_noop_witness :
    fsExists demoWorld.fs "/out/missing" = false ∧
      processMethod (demoEnv (fun _ => false) none) [] demoTests "/out/missing"
        (demoMethod "missing") demoWorld = ([], demoTests, demoWorld) :=
  ⟨by decide,
    (C9_absent_directory_is_noop (demoEnv (fun _ => false) none) [] demoTests "/out/missing"
      (demoMethod "missing") demoWorld (by decide)).1⟩

/-! ## Concrete runs of the per-file step and of the runners -/

/-- C3 at a concrete input: in batched mode the file `b.c`, absent from the artifact, is
skipped with nothing changed, and the file `a.c` with the methods `good` and `bad` is processed:
two engine runs, and two chunks handed to the generator. -/
theorem C3_batched_precondition_skip_witness :
    ((prepareTests (demoEnv (fun _ => false) none) true false
          [("a.c", [demoMethod "good", demoMethod "bad"])] ⟨"b.c", true, false, []⟩
          demoWorld).value = Except.ok () ∧
      (prepareTests (demoEnv (fun _ => false) none) true false
          [("a.c", [demoMethod "good", demoMethod "bad"])] ⟨"b.c", true, false, []⟩
          demoWorld).tests = ⟨"b.c", true, false, []⟩ ∧
      (prepareTests (demoEnv (fun _ => false) none) true false
          [("a.c", [demoMethod "good", demoMethod "bad"])] ⟨"b.c", true, false, []⟩
          demoWorld).world = demoWorld) ∧
    (prepareTests (demoEnv (fun _ => false) none) true false
        [("a.c", [demoMethod "good", demoMethod "bad"])] demoTests demoWorld).value =
      Except.ok () ∧
    (engineRuns (prepareTests (demoEnv (fun _ => false) none) true false
        [("a.c", [demoMethod "good", demoMethod "bad"])] demoTests demoWorld).world.log).length =
      2 :=
  ⟨(C3_batched_precondition_skip (demoEnv (fun _ => false) none) false
      [("a.c", [demoMethod "good", demoMethod "bad"])] ⟨"b.c", true, false, []⟩ demoWorld).1
      (Or.inr rfl),
    ((C3_batched_precondition_skip (demoEnv (fun _ => false) none) false
      [("a.c", [demoMethod "good", demoMethod "bad"])] demoTests demoWorld).2 rfl rfl
      (fun _ => rfl)).1,
    ((C3_batched_precondition_skip (demoEnv (fun _ => false) none) false
      [("a.c", [demoMethod "good", demoMethod "bad"])] demoTests demoWorld).2 rfl rfl
      (fun _ => rfl)).2.1⟩

/-- C4 at a concrete input: in non-batched mode the file `b.c`, absent from the build
commands, raises the first condition, and absent only from the artifact, the second. -/
theorem C4_non_batched_precondition_abort_witness :
    (prepareTests (demoEnv (fun _ => false) none) false false [] ⟨"b.c", false, false, []⟩
        demoWorld).value =
      Except.error (Exception.FileNotPresentedInCommandsException "b.c") ∧
    (prepareTests (demoEnv (fun _ => false) none) false false [] ⟨"b.c", true, false, []⟩
        demoWorld).value =
      Except.error (Exception.FileNotPresentedInArtifactException "b.c") :=
  ⟨((C4_non_batched_precondition_abort (demoEnv (fun _ => false) none) false []
      ⟨"b.c", false, false, []⟩ demoWorld).1 rfl).1,
    ((C4_non_batched_precondition_abort (demoEnv (fun _ => false) none) false []
      ⟨"b.c", true, false, []⟩ demoWorld).2.1 rfl rfl).1⟩

/-- C5 (as amended) at a concrete input: the three methods `late`, `good`, `bad` of `a.c`,
cancellation seen by the second poll (the one that follows the classification of `late`): the
step ends with the cancellation condition, no chunk is kept or handed on, and the timeout
diagnostic the classification of `late` appended stays in the comment list. -/
theorem C5_cancellation_after_first_method_witness :
    (prepareTests (demoEnv (fun n => n == 1) (some 5)) false false
        [("a.c", [demoMethod "late", demoMethod "good", demoMethod "bad"])] demoTests
        demoWorld).value = Except.error Exception.CancellationException ∧
    handedToGenerator (prepareTests (demoEnv (fun n => n == 1) (some 5)) false false
        [("a.c", [demoMethod "late", demoMethod "good", demoMethod "bad"])] demoTests
        demoWorld).world.log = [] ∧
    (dispatchEach (demoEnv (fun n => n == 1) (some 5))
        [demoMethod "late", demoMethod "good", demoMethod "bad"] demoTests [] demoWorld).out =
      [] ∧
    (prepareTests (demoEnv (fun n => n == 1) (some 5)) false false
        [("a.c", [demoMethod "late", demoMethod "good", demoMethod "bad"])] demoTests
        demoWorld).tests.commentBlocks = ["earlier note", timeoutMessage "late"] := by
  obtain ⟨h1, _, h3, _, h5, _, _, h8⟩ :=
    C5_cancellation_after_first_method (demoEnv (fun n => n == 1) (some 5)) false
      [("a.c", [demoMethod "late", demoMethod "good", demoMethod "bad"])] demoTests demoWorld
      (demoMethod "late") [demoMethod "good", demoMethod "bad"] rfl rfl (by decide)
      (Or.inr ⟨by decide, by decide⟩)
  refine ⟨h1, h3, h5, ?_⟩
  rw [(h8 (by decide)).1]
  decide

/-- C5 (as stated) fails: with the three methods `good`, `bad`, `late` of `a.c` and
cancellation seen right after the first method was classified, the step ends with the
cancellation condition and the engine has run once, but no method is left classified in any
result list: the local list holds no chunk and nothing reached the generator; only the
directory of the first method was cleaned and its statistics collected. -/
theorem C5_counterexample :
    (prepareTests (demoEnv (fun n => n == 1) (some 5)) false false
        [("a.c", [demoMethod "good", demoMethod "bad", demoMethod "late"])] demoTests
        demoWorld).value = Except.error Exception.CancellationException ∧
    (engineRuns (prepareTests (demoEnv (fun n => n == 1) (some 5)) false false
        [("a.c", [demoMethod "good", demoMethod "bad", demoMethod "late"])] demoTests
        demoWorld).world.log).length = 1 ∧
    (findCases (processMethod (demoEnv (fun n => n == 1) (some 5)) [] demoTests "/out/good"
        (demoMethod "good") demoWorld).1 (demoMethod "good")).isSome = true ∧
    (dispatchEach (demoEnv (fun n => n == 1) (some 5))
        [demoMethod "good", demoMethod "bad", demoMethod "late"] demoTests [] demoWorld).out.length
      ≠ 1 ∧
    ¬ (∃ ktests ∈ handedToGenerator (prepareTests (demoEnv (fun n => n == 1) (some 5)) false false
        [("a.c", [demoMethod "good", demoMethod "bad", demoMethod "late"])] demoTests
        demoWorld).world.log, ktests.length = 1) := by
  decide

/-- C6 at a concrete input: the batch `f`, `g`, `h` of `a.c` gives three chunks, in that
order: one case for `f`, none for `g` (empty sub-directory) and none for `h` (its only artifact
carries the internal-error marker). -/
theorem C6_interactive_one_chunk_per_method_witness :
    (processBatchWithInteractive (demoEnv (fun _ => false) (some 5))
        [demoMethod "f", demoMethod "g", demoMethod "h"] demoTests [] demoWorld).value =
      Except.ok () ∧
    (processBatchWithInteractive (demoEnv (fun _ => false) (some 5))
        [demoMethod "f", demoMethod "g", demoMethod "h"] demoTests [] demoWorld).out =
      [[(demoMethod "f", [⟨[⟨⟨"x", [1]⟩⟩], Status.SUCCESS, []⟩])], [], []] := by
  obtain ⟨h1, first, chunks, _, h3, h4, _⟩ :=
    C6_interactive_one_chunk_per_method (demoEnv (fun _ => false) (some 5))
      [demoMethod "f", demoMethod "g", demoMethod "h"] demoTests [] demoWorld rfl (by decide)
      (by decide)
  exact ⟨h1, by decide⟩

/-- C10 at a concrete input: with a per-function timeout of 5 the task of the interactive run
of three methods gets 15, and the task of a non-interactive run gets 5. -/
theorem C10_task_timeouts_witness :
    (engineRuns (processBatchWithInteractive (demoEnv (fun _ => false) (some 5))
        [demoMethod "f", demoMethod "g", demoMethod "h"] demoTests [] demoWorld).world.log).map
      Prod.snd = [some 15] ∧
    (engineRuns (processBatchWithoutInteractive (demoEnv (fun _ => false) (some 5)) []
        (demoMethod "good") demoTests demoWorld).world.log).map Prod.snd = [some 5] := by
  obtain ⟨hI, hN⟩ := C10_task_timeouts (demoEnv (fun _ => false) (some 5)) demoTests demoWorld rfl
  obtain ⟨a1, h1⟩ := hI [demoMethod "f", demoMethod "g", demoMethod "h"] [] (by decide)
  obtain ⟨a2, h2⟩ := hN [] (demoMethod "good")
  rw [h1, h2]
  exact ⟨rfl, rfl⟩


/-! ## The partition step of `runKlee` -/

theorem batchOf_pushMethod (f : FileToMethods) (p : Path) (m : TestMethod) (q : Path) :
    batchOf (pushMethod f p m) q = if q = p then batchOf f p ++ [m] else batchOf f q := by
  induction f with
  | nil =>
    by_cases h : q = p
    · simp [pushMethod, batchOf, h]
    · simp [pushMethod, batchOf, h, Ne.symm h]
  | cons kv rest ih =>
    obtain ⟨k, v⟩ := kv
    by_cases hk : k = p
    · subst hk
      by_cases h : q = k
      · simp [pushMethod, batchOf, h]
      · simp [pushMethod, batchOf, h, Ne.symm h]
    · by_cases h : q = p
      · subst h
        simp [pushMethod, batchOf, hk, ih]
      · by_cases hkq : k = q
        · simp [pushMethod, batchOf, hk, hkq, h]
        · simp [pushMethod, batchOf, hk, hkq, h, ih]

theorem keys_pushMethod (f : FileToMethods) (p : Path) (m : TestMethod) :
    (pushMethod f p m).map Prod.fst =
      if p ∈ f.map Prod.fst then f.map Prod.fst else f.map Prod.fst ++ [p] := by
  induction f with
  | nil => simp [pushMethod]
  | cons kv rest ih =>
    obtain ⟨k, v⟩ := kv
    by_cases hk : k = p
    · simp [pushMethod, hk]
    · have hpk : ¬ p = k := fun h => hk h.symm
      by_cases hmem : p ∈ rest.map Prod.fst
      · simp only [pushMethod, hk, if_false, List.map_cons, ih, hmem, if_true, List.mem_cons,
          or_true]
      · simp only [pushMethod, hk, if_false, List.map_cons, ih, hmem, List.mem_cons, hpk,
          or_self, List.cons_append]

theorem nodup_keys_pushMethod (f : FileToMethods) (p : Path) (m : TestMethod)
    (h : (f.map Prod.fst).Nodup) : ((pushMethod f p m).map Prod.fst).Nodup := by
  rw [keys_pushMethod]
  split
  · exact h
  · rename_i hp
    rw [List.nodup_append]
    refine ⟨h, by simp, ?_⟩
    intro a ha hb
    simp at hb
    subst hb
    exact hp ha

theorem sizes_pushMethod (f : FileToMethods) (p : Path) (m : TestMethod) :
    ((pushMethod f p m).map (fun kv => kv.2.length)).sum =
      (f.map (fun kv => kv.2.length)).sum + 1 := by
  induction f with
  | nil => simp [pushMethod]
  | cons kv rest ih =>
    obtain ⟨k, v⟩ := kv
    by_cases hk : k = p
    · simp [pushMethod, hk]; omega
    · simp [pushMethod, hk, ih]; omega

theorem values_perm_pushMethod (f : FileToMethods) (p : Path) (m : TestMethod) :
    ((pushMethod f p m).map Prod.snd).flatten.Perm ((f.map Prod.snd).flatten ++ [m]) := by
  induction f with
  | nil => simp [pushMethod]
  | cons kv rest ih =>
    obtain ⟨k, v⟩ := kv
    by_cases hk : k = p
    · simp only [pushMethod, hk, if_true, List.map_cons, List.flatten_cons, List.append_assoc]
      exact List.Perm.append_left v List.perm_append_comm
    · simp only [pushMethod, hk, if_false, List.map_cons, List.flatten_cons, List.append_assoc]
      exact List.Perm.append_left v ih

theorem nonempty_pushMethod (f : FileToMethods) (p : Path) (m : TestMethod)
    (h : ∀ kv ∈ f, kv.2 ≠ []) : ∀ kv ∈ pushMethod f p m, kv.2 ≠ [] := by
  induction f with
  | nil => intro kv hkv; simp [pushMethod] at hkv; subst hkv; simp
  | cons a rest ih =>
    obtain ⟨k, v⟩ := a
    intro kv hkv
    by_cases hk : k = p
    · simp only [pushMethod, hk, if_true, List.mem_cons] at hkv
      rcases hkv with rfl | hkv
      · simp
      · exact h kv (List.mem_cons_of_mem _ hkv)
    · simp only [pushMethod, hk, if_false, List.mem_cons] at hkv
      rcases hkv with rfl | hkv
      · exact h _ (List.mem_cons_self _ _)
      · exact ih (fun x hx => h x (List.mem_cons_of_mem _ hx)) kv hkv

theorem batchOf_of_mem (f : FileToMethods) (h : (f.map Prod.fst).Nodup) :
    ∀ kv ∈ f, batchOf f kv.1 = kv.2 := by
  induction f with
  | nil => intro kv hkv; cases hkv
  | cons a rest ih =>
    obtain ⟨k, v⟩ := a
    intro kv hkv
    simp only [List.map_cons, List.nodup_cons] at h
    rcases List.mem_cons.mp hkv with rfl | hkv
    · simp [batchOf]
    · have hne : k ≠ kv.1 := by
        intro hk
        exact h.1 (hk ▸ List.mem_map_of_mem Prod.fst hkv)
      simp [batchOf, hne, ih h.2 kv hkv]

/-- The partition loop from any starting map: what it adds to each batch, and what it keeps. -/
theorem partition_loop (ms : List TestMethod) :
    ∀ acc : FileToMethods,
      (∀ p, batchOf (ms.foldl (fun a method => pushMethod a method.sourceFilePath method) acc) p =
        batchOf acc p ++ ms.filter (fun m => m.sourceFilePath == p)) ∧
      ((acc.map Prod.fst).Nodup →
        ((ms.foldl (fun a method => pushMethod a method.sourceFilePath method) acc).map
          Prod.fst).Nodup) ∧
      ((∀ kv ∈ acc, kv.2 ≠ []) →
        ∀ kv ∈ ms.foldl (fun a method => pushMethod a method.sourceFilePath method) acc,
          kv.2 ≠ []) ∧
      ((ms.foldl (fun a method => pushMethod a method.sourceFilePath method) acc).map
          (fun kv => kv.2.length)).sum = (acc.map (fun kv => kv.2.length)).sum + ms.length ∧
      ((ms.foldl (fun a method => pushMethod a method.sourceFilePath method) acc).map
          Prod.snd).flatten.Perm ((acc.map Prod.snd).flatten ++ ms) := by
  induction ms with
  | nil => intro acc; simp
  | cons m rest ih =>
    intro acc
    obtain ⟨h1, h2, h3, h4, h5⟩ := ih (pushMethod acc m.sourceFilePath m)
    simp only [List.foldl_cons]
    refine ⟨?_, ?_, ?_, ?_, ?_⟩
    · intro p
      rw [h1 p, batchOf_pushMethod]
      by_cases hp : p = m.sourceFilePath
      · simp [hp]
      · have hp' : ¬ m.sourceFilePath = p := fun h => hp h.symm
        simp [hp, hp']
    · intro hn
      exact h2 (nodup_keys_pushMethod acc _ m hn)
    · intro hne
      exact h3 (nonempty_pushMethod acc _ m hne)
    · rw [h4, sizes_pushMethod]; simp; omega
    · refine h5.trans ?_
      have := (values_perm_pushMethod acc m.sourceFilePath m).append_right rest
      simpa using this

/-- C11: the partition step of `runKlee` gives every source file path exactly the
sub-sequence of the input methods with that path, in input order; the keys of the map are
pairwise distinct and each stored batch is that sub-sequence and is not empty, so every input
method is in exactly one batch; the batches together are a rearrangement of the input (nothing
dropped, nothing duplicated), and their sizes add up to the length of the input. -/
theorem C11_partition_by_source_file (testMethods : List TestMethod) :
    (∀ p : Path, batchOf (partitionMethods testMethods) p =
      testMethods.filter (fun m => m.sourceFilePath == p)) ∧
    ((partitionMethods testMethods).map Prod.fst).Nodup ∧
    (∀ kv ∈ partitionMethods testMethods,
      kv.2 ≠ [] ∧ kv.2 = testMethods.filter (fun m => m.sourceFilePath == kv.1)) ∧
    (∀ m ∈ testMethods, ∃ kv ∈ partitionMethods testMethods,
      kv.1 = m.sourceFilePath ∧ m ∈ kv.2) ∧
    ((partitionMethods testMethods).map Prod.snd).flatten.Perm testMethods ∧
    ((partitionMethods testMethods).map (fun kv => kv.2.length)).sum = testMethods.length := by
  obtain ⟨h1, h2, h3, h4, h5⟩ := partition_loop testMethods []
  have hb : ∀ p : Path, batchOf (partitionMethods testMethods) p =
      testMethods.filter (fun m => m.sourceFilePath == p) := by
    intro p; simpa [partitionMethods, batchOf] using h1 p
  have hn : ((partitionMethods testMethods).map Prod.fst).Nodup := h2 (by simp)
  have hmem : ∀ kv ∈ partitionMethods testMethods,
      kv.2 ≠ [] ∧ kv.2 = testMethods.filter (fun m => m.sourceFilePath == kv.1) := by
    intro kv hkv
    refine ⟨h3 (by simp) kv hkv, ?_⟩
    rw [← hb kv.1, batchOf_of_mem _ hn kv hkv]
  refine ⟨hb, hn, hmem, ?_, by simpa using h5, by simpa using h4⟩
  intro m hm
  have hin : m ∈ ((partitionMethods testMethods).map Prod.snd).flatten :=
    (List.Perm.mem_iff (by simpa using h5)).mpr hm
  obtain ⟨v, hv, hmv⟩ := List.mem_flatten.mp hin
  obtain ⟨kv, hkv, rfl⟩ := List.mem_map.mp hv
  refine ⟨kv, hkv, ?_, hmv⟩
  rw [(hmem kv hkv).2] at hmv
  have hsrc : m.sourceFilePath = kv.1 := by simpa using (List.mem_filter.mp hmv).2
  exact hsrc.symm

/-! ## The order of the diagnostics -/

theorem timeout_ne_internalError (a : String) : timeoutMessage a ≠ internalErrorMessage a := by
  intro h
  have h1 := congrArg String.data h
  simp only [timeoutMessage, internalErrorMessage, String.data_append, List.append_assoc] at h1
  have h2 := List.append_cancel_left (List.append_cancel_left h1)
  revert h2
  decide

/-- The two flags after the loop: the timeout flag is set by an artifact with the
early-termination marker, the error flag by an artifact with the internal-error marker and
without the early-termination marker. -/
theorem processEntries_flags (env : Env) (fs : FileSystem) (m : TestMethod) (l : List Path) :
    ∀ st : LoopState,
      (processEntries env fs m st l).hasTimeout =
        (st.hasTimeout || l.any (fun p => env.isKtestJson p && env.hasEarly fs p)) ∧
      (processEntries env fs m st l).hasError =
        (st.hasError ||
          l.any (fun p => env.isKtestJson p && !env.hasEarly fs p && env.hasInternalError fs p)) := by
  induction l with
  | nil => intro st; simp [processEntries]
  | cons p l ih =>
    intro st
    rw [processEntries_cons]
    obtain ⟨h1, h2⟩ := ih (processEntry env fs m st p)
    rw [h1, h2]
    unfold processEntry
    simp only [List.any_cons]
    cases hk : env.isKtestJson p <;> cases he : env.hasEarly fs p <;>
      cases hi : env.hasInternalError fs p <;> cases env.TC_fromFile fs p <;> simp

/-- The shape of the diagnostics of one call, for any values of the three conditions. -/
theorem diagnostics_shape (t e g : String) (hte : t ≠ e) (hgt : g ≠ t) (hge : g ≠ e)
    (bT bE bN : Bool) :
    ((if bT then [t] else []) ++ (if bE then [e] else []) ++
        (if bN then [g] else [])).Sublist [t, e, g] ∧
      (t ∈ (if bT then [t] else []) ++ (if bE then [e] else []) ++ (if bN then [g] else []) ↔
        bT = true) ∧
      (e ∈ (if bT then [t] else []) ++ (if bE then [e] else []) ++ (if bN then [g] else []) ↔
        bE = true) := by
  have hte' : e ≠ t := Ne.symm hte
  have hgt' : t ≠ g := Ne.symm hgt
  have hge' : e ≠ g := Ne.symm hge
  cases bT <;> cases bE <;> cases bN <;> simp [hte, hte', hgt', hge']

/-- C12 (as amended): on an existing output directory the diagnostics one call of
`processMethod` appends are a sub-sequence of timeout message, internal-error message,
not-generated message, three different strings, so they come in that order and each at most
once; the timeout message is appended exactly when an enumerated artifact carries the
early-termination marker, and the internal-error message exactly when an enumerated artifact
carries the internal-error marker and not the early-termination marker, so a directory with an
artifact of each kind gets both. -/
theorem C12_diagnostic_order (env : Env) (ktestChunk : MethodKtests) (tests : Tests)
    (kleeOut : Path) (method : TestMethod) (w : World)
    (hex : fsExists w.fs kleeOut = true) :
    ∃ diag : List String,
      (processMethod env ktestChunk tests kleeOut method w).2.1.commentBlocks =
        tests.commentBlocks ++ diag ∧
      diag.Sublist [timeoutMessage method.methodName, internalErrorMessage method.methodName,
        notGeneratedMessage method.methodName] ∧
      [timeoutMessage method.methodName, internalErrorMessage method.methodName,
        notGeneratedMessage method.methodName].Nodup ∧
      (timeoutMessage method.methodName ∈ diag ↔
        ∃ p ∈ directory_iterator (clearUnusedData w.fs kleeOut) kleeOut,
          env.isKtestJson p = true ∧ env.hasEarly (clearUnusedData w.fs kleeOut) p = true) ∧
      (internalErrorMessage method.methodName ∈ diag ↔
        ∃ p ∈ directory_iterator (clearUnusedData w.fs kleeOut) kleeOut,
          env.isKtestJson p = true ∧ env.hasEarly (clearUnusedData w.fs kleeOut) p = false ∧
          env.hasInternalError (clearUnusedData w.fs kleeOut) p = true) := by
  have hte := timeout_ne_internalError method.methodName
  have hgt := notGenerated_ne_timeout method.methodName method.methodName
  have hge := notGenerated_ne_internalError method.methodName method.methodName
  obtain ⟨hT, hE⟩ := processEntries_flags env (clearUnusedData w.fs kleeOut) method
    (directory_iterator (clearUnusedData w.fs kleeOut) kleeOut) ⟨false, false, ktestChunk⟩
  simp only [Bool.false_or] at hT hE
  obtain ⟨s1, s2, s3⟩ := diagnostics_shape (timeoutMessage method.methodName)
    (internalErrorMessage method.methodName) (notGeneratedMessage method.methodName) hte hgt hge
    (processEntries env (clearUnusedData w.fs kleeOut) method ⟨false, false, ktestChunk⟩
      (directory_iterator (clearUnusedData w.fs kleeOut) kleeOut)).hasTimeout
    (processEntries env (clearUnusedData w.fs kleeOut) method ⟨false, false, ktestChunk⟩
      (directory_iterator (clearUnusedData w.fs kleeOut) kleeOut)).hasError
    ((findCases (processEntries env (clearUnusedData w.fs kleeOut) method
        ⟨false, false, ktestChunk⟩
        (directory_iterator (clearUnusedData w.fs kleeOut) kleeOut)).ktestChunk method).isNone ||
      (findCases (processEntries env (clearUnusedData w.fs kleeOut) method
        ⟨false, false, ktestChunk⟩
        (directory_iterator (clearUnusedData w.fs kleeOut) kleeOut)).ktestChunk method) == some [])
  rw [processMethod_of_exists _ _ _ _ _ _ hex]
  refine ⟨_, by simp only [List.append_assoc]; rfl, ?_, ?_, ?_, ?_⟩
  · simpa only [List.append_assoc] using s1
  · simp [hte, Ne.symm hgt, Ne.symm hge]
  · rw [← List.append_assoc, s2, hT]
    simp only [List.any_eq_true, Bool.and_eq_true]
  · rw [← List.append_assoc, s3, hE]
    simp only [List.any_eq_true, Bool.and_eq_true, Bool.not_eq_true']
    constructor
    · rintro ⟨p, hp, ⟨hk, he⟩, hi⟩
      exact ⟨p, hp, hk, he, hi⟩
    · rintro ⟨p, hp, hk, he, hi⟩
      exact ⟨p, hp, ⟨hk, he⟩, hi⟩

/-- C12 (as amended) at a concrete input: in `/out/mixed` one artifact carries the
early-termination marker and another only the internal-error marker, and the comment list gets
the timeout message, then the internal-error message, then the not-generated message. -/
theorem C12_diagnostic_order_witness :
    fsExists demoFsMarked "/out/mixed" = true ∧
      (processMethod (demoEnv (fun _ => false) none) [] demoTests "/out/mixed"
          (demoMethod "mixed") ⟨demoFsMarked, [], 0⟩).2.1.commentBlocks =
        ["earlier note", timeoutMessage "mixed", internalErrorMessage "mixed",
          notGeneratedMessage "mixed"] ∧
      ∃ diag : List String,
        (processMethod (demoEnv (fun _ => false) none) [] demoTests "/out/mixed"
          (demoMethod "mixed") ⟨demoFsMarked, [], 0⟩).2.1.commentBlocks =
          ["earlier note"] ++ diag ∧
        timeoutMessage "mixed" ∈ diag ∧ internalErrorMessage "mixed" ∈ diag := by
  refine ⟨by decide, by decide, ?_⟩
  obtain ⟨diag, h1, _, _, h4, h5⟩ :=
    C12_diagnostic_order (demoEnv (fun _ => false) none) [] demoTests "/out/mixed"
      (demoMethod "mixed") ⟨demoFsMarked, [], 0⟩ (by decide)
  exact ⟨diag, h1, h4.mpr ⟨"/out/mixed/test1.ktestjson", by decide, by decide, by decide⟩,
    h5.mpr ⟨"/out/mixed/test2.ktestjson", by decide, by decide, by decide, by decide⟩⟩

/-- C12 (as stated) fails: `/out/both` holds the artifact `test1.ktestjson` with the
early-termination marker and the artifact `test2.ktestjson` with the internal-error marker;
the second also carries the early-termination marker, which is tested first, so the error
flag is never set and the comment list gets the timeout message without the internal-error
message. -/
theorem C12_counterexample :
    ("/out/both/test1.ktestjson" ∈
        directory_iterator (clearUnusedData demoFsMarked "/out/both") "/out/both" ∧
      (demoEnv (fun _ => false) none).isKtestJson "/out/both/test1.ktestjson" = true ∧
      (demoEnv (fun _ => false) none).hasEarly (clearUnusedData demoFsMarked "/out/both")
        "/out/both/test1.ktestjson" = true) ∧
    ("/out/both/test2.ktestjson" ∈
        directory_iterator (clearUnusedData demoFsMarked "/out/both") "/out/both" ∧
      (demoEnv (fun _ => false) none).isKtestJson "/out/both/test2.ktestjson" = true ∧
      (demoEnv (fun _ => false) none).hasInternalError (clearUnusedData demoFsMarked "/out/both")
        "/out/both/test2.ktestjson" = true) ∧
    (processMethod (demoEnv (fun _ => false) none) [] demoTests "/out/both"
        (demoMethod "both") ⟨demoFsMarked, [], 0⟩).2.1.commentBlocks =
      ["earlier note", timeoutMessage "both", notGeneratedMessage "both"] ∧
    internalErrorMessage "both" ∉
      (processMethod (demoEnv (fun _ => false) none) [] demoTests "/out/both"
        (demoMethod "both") ⟨demoFsMarked, [], 0⟩).2.1.commentBlocks := by
  decide

/-! ## The entry-points file -/

theorem entrypoints_loop_data (env : Env) (tests : Tests) (ms : List TestMethod) :
    ∀ init : String,
      (ms.foldl (fun acc method => acc ++ env.entryPointFunction tests method.methodName ++ "\n")
        init).data =
        init.data ++
          (ms.map (fun m => (env.entryPointFunction tests m.methodName).data ++ ['\n'])).flatten := by
  induction ms with
  | nil => intro init; simp
  | cons m rest ih =>
    intro init
    simp only [List.foldl_cons, ih, String.data_append, List.map_cons, List.flatten_cons,
      List.append_assoc]

theorem linesFrom_line (s rest : List Char) (hs : '\n' ∉ s) :
    ∀ cur : List Char,
      linesFrom (s ++ '\n' :: rest) cur = (cur.reverse ++ s) :: linesFrom rest [] := by
  induction s with
  | nil => intro cur; simp [linesFrom]
  | cons c s ih =>
    intro cur
    have hc : c ≠ '\n' := fun h => hs (h ▸ List.mem_cons_self _ _)
    have hs' : '\n' ∉ s := fun h => hs (List.mem_cons_of_mem _ h)
    simp [linesFrom, hc, ih hs']

theorem linesFrom_entries (syms : List (List Char)) (h : ∀ s ∈ syms, '\n' ∉ s) :
    linesFrom (syms.map (fun s => s ++ ['\n'])).flatten [] = syms := by
  induction syms with
  | nil => simp [linesFrom]
  | cons s rest ih =>
    have hs := h s (List.mem_cons_self _ _)
    have hrest := ih (fun x hx => h x (List.mem_cons_of_mem _ hx))
    simp only [List.map_cons, List.flatten_cons, List.append_assoc, List.singleton_append]
    rw [linesFrom_line s _ hs, hrest]
    simp

theorem readFile_writeFile (fs : FileSystem) (p : Path) (text : String)
    (hdir : ∀ n ∈ fs.nodes, n.1 = p → n.2 ≠ Node.dir) :
    readFile (writeFile fs p text) p = text := by
  unfold writeFile
  split
  · rename_i q hfind
    have hmem := List.mem_of_find?_eq_some hfind
    have hq : q = p := by simpa using List.find?_some hfind
    exact absurd rfl (hdir _ hmem hq)
  · rename_i q old hfind
    have hq : q = p := by simpa using List.find?_some hfind
    have key : ∀ l : List (Path × Node), l.find? (fun n => n.1 == p) = some (q, Node.file old) →
        (l.map (fun n => if n.1 == p then (p, Node.file text) else n)).find?
          (fun n => n.1 == p) = some (p, Node.file text) := by
      intro l
      induction l with
      | nil => intro h; simp at h
      | cons a l ih =>
        intro h
        by_cases ha : (a.1 == p) = true
        · rw [List.map_cons, if_pos ha, List.find?_cons]
          simp
        · have hb : (a.1 == p) = false := by simpa using ha
          rw [List.find?_cons, hb] at h
          rw [List.map_cons, if_neg ha, List.find?_cons, hb]
          exact ih h
    simp only [readFile, key fs.nodes hfind]
  · rename_i hfind
    simp only [readFile, List.find?_append, hfind, Option.none_or]
    simp [List.find?]

/-- C13: the text `processBatchWithInteractive` writes to the entry-points file is the
entry-point symbol of each method of the batch, in batch order, each followed by one line
break, and nothing else; when no symbol holds a line break the text has exactly one line per
method, the i-th line being the symbol of the i-th method; and the engine is started on a file
system in which, unless a directory stands at its path, the entry-points file reads back as
that text. -/
theorem C13_entrypoints_file (env : Env) (tests : Tests) (testMethods : List TestMethod) :
    (entrypointsText env tests testMethods).data =
        (testMethods.map (fun m =>
          (env.entryPointFunction tests m.methodName).data ++ ['\n'])).flatten ∧
    ((∀ m ∈ testMethods, '\n' ∉ (env.entryPointFunction tests m.methodName).data) →
      textLines (entrypointsText env tests testMethods) =
          testMethods.map (fun m => env.entryPointFunction tests m.methodName) ∧
        (textLines (entrypointsText env tests testMethods)).length = testMethods.length) ∧
    (∀ (first : TestMethod) (w : World),
      (∀ n ∈ (create_directories w.fs
          (parent_path (env.kleeOutDirForFile tests.sourceFilePath))).nodes,
        n.1 = pathAppend (parent_path (env.kleeOutDirForFile tests.sourceFilePath))
          "entrypoints.txt" → n.2 ≠ Node.dir) →
      ∃ (argv : List String) (timeout : Option Nat) (fs2 : FileSystem),
        (interactiveEngineRun env first testMethods tests w).fs = env.engine argv timeout fs2 ∧
        readFile fs2 (pathAppend (parent_path (env.kleeOutDirForFile tests.sourceFilePath))
          "entrypoints.txt") = entrypointsText env tests testMethods) := by
  have hdata : (entrypointsText env tests testMethods).data =
      (testMethods.map (fun m =>
        (env.entryPointFunction tests m.methodName).data ++ ['\n'])).flatten := by
    have := entrypoints_loop_data env tests testMethods ""
    simpa [entrypointsText] using this
  have hlines : (∀ m ∈ testMethods, '\n' ∉ (env.entryPointFunction tests m.methodName).data) →
      textLines (entrypointsText env tests testMethods) =
        testMethods.map (fun m => env.entryPointFunction tests m.methodName) := by
    intro hno
    have h1 := linesFrom_entries
      (testMethods.map (fun m => (env.entryPointFunction tests m.methodName).data))
      (by
        intro s hs
        obtain ⟨m, hm, rfl⟩ := List.mem_map.mp hs
        exact hno m hm)
    simp only [List.map_map] at h1
    unfold textLines
    rw [hdata]
    have h2 : (testMethods.map (fun m =>
        (env.entryPointFunction tests m.methodName).data ++ ['\n'])) =
        testMethods.map ((fun s => s ++ ['\n']) ∘
          fun m => (env.entryPointFunction tests m.methodName).data) := rfl
    rw [h2, h1, List.map_map]
    rfl
  refine ⟨hdata, fun hno => ⟨hlines hno, by rw [hlines hno, List.length_map]⟩, ?_⟩
  intro first w hdir
  exact ⟨_, _, _, rfl, readFile_writeFile _ _ _ hdir⟩

/-- C13 at a concrete input: for the batch `f`, `g`, `h` the text has the three lines
`klee_entry__f`, `klee_entry__g`, `klee_entry__h`. -/
theorem C13_entrypoints_file_witness :
    entrypointsText (demoEnv (fun _ => false) none) demoTests
        [demoMethod "f", demoMethod "g", demoMethod "h"] =
      "klee_entry__f\nklee_entry__g\nklee_entry__h\n" ∧
    textLines (entrypointsText (demoEnv (fun _ => false) none) demoTests
        [demoMethod "f", demoMethod "g", demoMethod "h"]) =
      ["klee_entry__f", "klee_entry__g", "klee_entry__h"] :=
  ⟨by decide,
    ((C13_entrypoints_file (demoEnv (fun _ => false) none) demoTests
      [demoMethod "f", demoMethod "g", demoMethod "h"]).2.1 (by decide)).1⟩

/-! ## The comment list only grows -/

/-- C14: the comment list of the file is append-only under `processMethod`,
`processBatchWithoutInteractive` and `processBatchWithInteractive`: for every call, whatever
its arguments and whether it returns or throws, the comment list before the call starts the
comment list after the call, element for element. -/
theorem C14_comment_list_append_only (env : Env) :
    (∀ (ktestChunk : MethodKtests) (tests : Tests) (kleeOut : Path) (method : TestMethod)
        (w : World),
      tests.commentBlocks <+:
        (processMethod env ktestChunk tests kleeOut method w).2.1.commentBlocks) ∧
    (∀ (ktestChunk : MethodKtests) (testMethod : TestMethod) (tests : Tests) (w : World),
      tests.commentBlocks <+:
        (processBatchWithoutInteractive env ktestChunk testMethod tests w).tests.commentBlocks) ∧
    (∀ (testMethods : List TestMethod) (tests : Tests) (ktests : List MethodKtests) (w : World),
      tests.commentBlocks <+:
        (processBatchWithInteractive env testMethods tests ktests w).tests.commentBlocks) := by
  have hpm : ∀ (ktestChunk : MethodKtests) (tests : Tests) (kleeOut : Path)
      (method : TestMethod) (w : World),
      tests.commentBlocks <+:
        (processMethod env ktestChunk tests kleeOut method w).2.1.commentBlocks := by
    intro ktestChunk tests kleeOut method w
    obtain ⟨diag, hd⟩ := (processMethod_frame env ktestChunk tests kleeOut method w _ rfl).2.2.2.2.2.2.2
    exact ⟨diag, hd.symm⟩
  refine ⟨hpm, ?_, ?_⟩
  · intro ktestChunk testMethod tests w
    cases hArt : tests.isFilePresentedInArtifact
    · simp [processBatchWithoutInteractive, hArt]
    · cases hc : env.cancelled w.polls
      · rw [processBatchWithoutInteractive_ok env ktestChunk testMethod tests w hArt hc]
        exact hpm _ _ _ _ _
      · rw [processBatchWithoutInteractive_cancelled env ktestChunk testMethod tests w hArt hc]
  · intro testMethods tests ktests w
    cases hArt : tests.isFilePresentedInArtifact
    · simp [processBatchWithInteractive, hArt]
    · cases testMethods with
      | nil => simp [processBatchWithInteractive, hArt]
      | cons first rest =>
        cases hc : env.cancelled w.polls
        · rw [processBatchWithInteractive_ok env (first :: rest) first tests ktests w hArt rfl hc]
          obtain ⟨diag, hd⟩ := (classifyEach_frame env (env.kleeOutDirForFile tests.sourceFilePath)
            (first :: rest) tests ktests
            { interactiveEngineRun env first (first :: rest) tests w with
              polls := w.polls + 1 }).2.2.2.2.2
          exact ⟨diag, hd.symm⟩
        · rw [processBatchWithInteractive_cancelled env (first :: rest) first tests ktests w hArt
            rfl hc]

/-! ## The first method of an interactive batch -/

theorem engineRuns_interactiveEngineRun (env : Env) (first : TestMethod)
    (testMethods : List TestMethod) (tests : Tests) (w : World) :
    engineRuns (interactiveEngineRun env first testMethods tests w).log =
      engineRuns w.log ++
        [(interactiveArgv env ("--entry-point=" ++ env.entryPointFunction tests first.methodName)
            ("--entrypoints-file=" ++
              pathAppend (parent_path (env.kleeOutDirForFile tests.sourceFilePath))
                "entrypoints.txt")
            ("--output-dir=" ++ env.kleeOutDirForFile tests.sourceFilePath)
            first.bitcodeFilePath,
          interactiveTimeout env testMethods)] := by
  simp [interactiveEngineRun, engineRuns_append, engineRuns]

/-- The non-interactive loop ends normally or with the cancellation condition. -/
theorem dispatchEach_value (env : Env) (l : List TestMethod) :
    ∀ (tests : Tests) (ktests : List MethodKtests) (w : World),
      (dispatchEach env l tests ktests w).value = Except.ok () ∨
        (dispatchEach env l tests ktests w).value =
          Except.error Exception.CancellationException := by
  induction l with
  | nil => intro tests ktests w; exact Or.inl rfl
  | cons m rest ih =>
    intro tests ktests w
    cases hArt : tests.isFilePresentedInArtifact
    · have h1 : processBatchWithoutInteractive env [] m tests w = ⟨Except.ok (), [], tests, w⟩ := by
        simp [processBatchWithoutInteractive, hArt]
      cases hc : env.cancelled w.polls
      · simp only [dispatchEach, h1, throwIfCancelled, hc]
        exact ih _ _ _
      · simp [dispatchEach, h1, throwIfCancelled, hc]
    · cases hc : env.cancelled w.polls
      · have h1 := processBatchWithoutInteractive_ok env [] m tests w hArt hc
        simp only [dispatchEach, h1, throwIfCancelled]
        split
        · rename_i heq
          split at heq
          · simp only [Prod.mk.injEq] at heq
            exact Or.inr (by rw [← heq.1])
          · simp at heq
        · exact ih _ _ _
      · have h1 := processBatchWithoutInteractive_cancelled env [] m tests w hArt hc
        simp [dispatchEach, h1]

/-- C15: `processBatchWithInteractive` reads `testMethods[0]`; the per-file step of `runKlee`
calls it only with a non-empty batch, so the step never ends with the out-of-bounds read,
whatever the mode and the batch; and for a dispatched file in interactive mode the step runs
the engine exactly once, with the entry-point flag of the first method of the batch as the
argument after the program name and the bitcode path of the first method as the last argument
before the two stdin arguments. -/
theorem C15_first_method_of_batch (env : Env) (isBatched : Bool)
    (fileToMethods : FileToMethods) (tests : Tests) (w : World) :
    (∀ interactiveMode : Bool,
      (prepareTests env isBatched interactiveMode fileToMethods tests w).value ≠
        Except.error Exception.IndexOutOfBounds) ∧
    (∀ (first : TestMethod) (rest : List TestMethod),
      tests.isFilePresentedInCommands = true → tests.isFilePresentedInArtifact = true →
      batchOf fileToMethods tests.sourceFilePath = first :: rest →
      ∃ (argv : List String) (timeout : Option Nat) (before : List String),
        engineRuns (prepareTests env isBatched true fileToMethods tests w).world.log =
          engineRuns w.log ++ [(argv, timeout)] ∧
        argv[0]? = some "klee" ∧
        argv[1]? = some ("--entry-point=" ++ env.entryPointFunction tests first.methodName) ∧
        argv = before ++ [first.bitcodeFilePath, "--sym-stdin", toString env.symStdinSize]) := by
  constructor
  · intro interactiveMode
    cases hCmd : tests.isFilePresentedInCommands
    · cases isBatched <;> simp [prepareTests, hCmd]
    · cases hArt : tests.isFilePresentedInArtifact
      · cases isBatched <;> simp [prepareTests, hCmd, hArt]
      · cases interactiveMode
        · have hv := dispatchEach_value env (batchOf fileToMethods tests.sourceFilePath) tests [] w
          simp only [prepareTests, hCmd, hArt, Bool.not_true, Bool.false_eq_true, if_false]
          rcases hv with hv | hv <;> simp [hv]
        · cases hb : batchOf fileToMethods tests.sourceFilePath with
          | nil => simp [prepareTests, hCmd, hArt, hb]
          | cons first rest =>
            cases hc : env.cancelled w.polls
            · have h1 := processBatchWithInteractive_ok env (first :: rest) first tests [] w hArt
                rfl hc
              simp [prepareTests, hCmd, hArt, hb, h1]
            · have h1 := processBatchWithInteractive_cancelled env (first :: rest) first tests []
                w hArt rfl hc
              simp [prepareTests, hCmd, hArt, hb, h1]
  · intro first rest hCmd hArt hb
    refine ⟨interactiveArgv env ("--entry-point=" ++ env.entryPointFunction tests first.methodName)
        ("--entrypoints-file=" ++
          pathAppend (parent_path (env.kleeOutDirForFile tests.sourceFilePath)) "entrypoints.txt")
        ("--output-dir=" ++ env.kleeOutDirForFile tests.sourceFilePath) first.bitcodeFilePath,
      interactiveTimeout env (first :: rest),
      ["klee", "--entry-point=" ++ env.entryPointFunction tests first.methodName, "--libc=klee",
        "--utbot", "--posix-runtime", "--fp-runtime", "--only-output-states-covering-new",
        "--allocate-determ", "--external-calls=all", "--timer-interval=1000ms",
        "--bcov-check-interval=6s", "-istats-write-interval=5s", "--disable-verify",
        "--check-div-zero=false", "--check-overshift=false",
        "--skip-not-lazy-and-symbolic-pointers", "--interactive", env.processNumberOption,
        "--entrypoints-file=" ++
          pathAppend (parent_path (env.kleeOutDirForFile tests.sourceFilePath)) "entrypoints.txt",
        "--output-dir=" ++ env.kleeOutDirForFile tests.sourceFilePath]
      ++ (match env.settingsContext.timeoutPerFunction with
          | some t => ["--timeout-per-function=" ++ toString t]
          | none => [])
      ++ (if env.settingsContext.useDeterministicSearcher then ["--search=dfs"] else []),
      ?_, by simp [interactiveArgv], by simp [interactiveArgv], by simp [interactiveArgv]⟩
    have hrun := engineRuns_interactiveEngineRun env first (first :: rest) tests w
    cases hc : env.cancelled w.polls
    · have h1 := processBatchWithInteractive_ok env (first :: rest) first tests [] w hArt rfl hc
      have hf := (classifyEach_frame env (env.kleeOutDirForFile tests.sourceFilePath)
        (first :: rest) tests []
        { interactiveEngineRun env first (first :: rest) tests w with
          polls := w.polls + 1 }).2.2.1
      simp only [prepareTests, hCmd, hArt, hb, Bool.not_true, Bool.false_eq_true, if_false,
        if_true, List.isEmpty_cons, Bool.not_false, h1]
      rw [engineRuns_append, hf]
      simpa [engineRuns] using hrun
    · have h1 := processBatchWithInteractive_cancelled env (first :: rest) first tests [] w hArt
        rfl hc
      simp only [prepareTests, hCmd, hArt, hb, Bool.not_true, Bool.false_eq_true, if_false,
        if_true, List.isEmpty_cons, Bool.not_false, h1]
      exact hrun

/-- C15 at a concrete input: in interactive mode with the batch `f`, `g`, `h` of `a.c` the
step ends normally and the one engine run has the entry-point flag and the bitcode path of
`f`. -/
theorem C15_first_method_of_batch_witness :
    (prepareTests (demoEnv (fun _ => false) (some 5)) false true
        [("a.c", [demoMethod "f", demoMethod "g", demoMethod "h"])] demoTests demoWorld).value =
      Except.ok () ∧
    ∃ (argv : List String) (timeout : Option Nat) (before : List String),
      engineRuns (prepareTests (demoEnv (fun _ => false) (some 5)) false true
          [("a.c", [demoMethod "f", demoMethod "g", demoMethod "h"])] demoTests
          demoWorld).world.log = [(argv, timeout)] ∧
      argv[1]? = some "--entry-point=klee_entry__f" ∧
      argv = before ++ ["a.bc", "--sym-stdin", "64"] := by
  refine ⟨by decide, ?_⟩
  obtain ⟨argv, timeout, before, h1, _, h3, h4⟩ :=
    (C15_first_method_of_batch (demoEnv (fun _ => false) (some 5)) false
      [("a.c", [demoMethod "f", demoMethod "g", demoMethod "h"])] demoTests demoWorld).2
      (demoMethod "f") [demoMethod "g", demoMethod "h"] rfl rfl (by decide)
  exact ⟨argv, timeout, before, by simpa [engineRuns, demoWorld] using h1, h3, h4⟩

end KleeRunner
